import Mathlib

/-!
# Verification of the 8-puzzle solver (`puzzlesolver.py`)

A shallow embedding of the `EightPuzzle` class: configurations are
`List (List Nat)` (3×3 grids of the values 0..8, where 0 is the blank),
and the three search routines (`solve_bfs`, `solve_bidirectional`,
`solve_simulated_annealing`) are translated function by function.

The two exhaustive searches are embedded with an explicit fuel counter:
the result type `Option (Option Path)` separates fuel exhaustion (outer
`none`, which we prove never occurs for the fuel chosen here) from the
source's "no solution" sentinel (`some none`).  The simulated annealing
routine consumes its randomness (`random.choice` and the Metropolis
draw `random.random() < exp(...)`) through explicit oracle streams
`choice : Nat → Nat` and `accept : Nat → Bool`; the temperature
schedule, which in the source is floating point, is carried in `ℚ`.
-/

/-- A puzzle configuration: a grid of rows of cells (Python's nested lists). -/
abbrev Config := List (List Nat)

/-- `self.goal_state = [[1, 2, 3], [4, 5, 6], [7, 8, 0]]`. -/
def goal_state : Config := [[1, 2, 3], [4, 5, 6], [7, 8, 0]]

/-- Indexing `state[i][j]` (out-of-range reads, which the source never
performs on well-formed grids, default to 0). -/
def cellAt (s : Config) (i j : Nat) : Nat := (s.getD i []).getD j 0

/-- Assignment `state[i][j] = v` on an immutable grid. -/
def setCell (s : Config) (i j v : Nat) : Config :=
  s.set i ((s.getD i []).set j v)

/-- `get_blank_position`: scan the rows in order, then the cells of each row
in order, and return the first coordinates holding 0; `none` when no cell
is 0 (the Python function returns `None` there). -/
def get_blank_position (state : Config) : Option (Nat × Nat) :=
  (List.range 3).findSome? fun i =>
    (List.range 3).findSome? fun j =>
      if cellAt state i j = 0 then some (i, j) else none

/-- The simultaneous assignment
`new[i][j], new[mi][mj] = new[mi][mj], new[i][j]` performed on a fresh copy
of `state`:  both right-hand sides are read from the unmodified `state`,
then the two cells are written in order. -/
def swapCells (s : Config) (i j mi mj : Nat) : Config :=
  setCell (setCell s i j (cellAt s mi mj)) mi mj (cellAt s i j)

/-- `get_neighbors`: all states obtained by moving the blank.  The move
candidates are, in order, up / down / left / right of the blank; each is kept
when it lies inside the 3×3 bounds (the coordinates are compared as integers,
as in Python, so `i - 1` at `i = 0` is `-1` and is discarded).  When
`get_blank_position` returns `None` the Python unpacking `i, j = ...` would
fail; that branch is embedded as the empty list and is proved unreachable
for permutation states. -/
def get_neighbors (state : Config) : List Config :=
  match get_blank_position state with
  | none => []
  | some (i, j) =>
      let moves : List (Int × Int) :=
        [((i : Int) - 1, (j : Int)), ((i : Int) + 1, (j : Int)),
         ((i : Int), (j : Int) - 1), ((i : Int), (j : Int) + 1)]
      moves.foldl
        (fun acc m =>
          if 0 ≤ m.1 ∧ m.1 < 3 ∧ 0 ≤ m.2 ∧ m.2 < 3 then
            acc ++ [swapCells state i j m.1.toNat m.2.toNat]
          else acc)
        []

/-- `is_goal`: structural equality with the goal grid. -/
def is_goal (state : Config) : Bool := state = goal_state

/-- `state_to_string`: concatenation of the decimal representations of the
cells in row-major order (`''.join(''.join(str(cell) ...) ...)`). -/
def state_to_string (state : Config) : String :=
  String.join (state.map fun row => String.join (row.map fun cell => Nat.repr cell))

/-- `manhattan_distance`: sum over the non-blank cells of
`abs(i - goal_i) + abs(j - goal_j)` where
`goal_i, goal_j = (v - 1) // 3, (v - 1) % 3`.  Python's `int` arithmetic is
embedded in `ℤ` (the `v - 1` happens on a value known to be ≥ 1, so the
natural subtraction agrees with Python). -/
def manhattan_distance (state : Config) : Int :=
  (List.range 3).foldl
    (fun dist i =>
      (List.range 3).foldl
        (fun dist2 j =>
          let v := cellAt state i j
          if v ≠ 0 then
            dist2 + |(i : Int) - (((v - 1) / 3 : Nat) : Int)|
                  + |(j : Int) - (((v - 1) % 3 : Nat) : Int)|
          else dist2)
        dist)
    0

/-- A well-formed grid: 3 rows of 3 cells. -/
def wellFormed (s : Config) : Prop := s.length = 3 ∧ ∀ r ∈ s, r.length = 3

/-- The specification's configuration invariant: a 3×3 grid whose cells are
a permutation of `0..8`. -/
def isPermutation (s : Config) : Prop :=
  wellFormed s ∧ s.flatten.Perm (List.range 9)

instance decPerm (l₁ l₂ : List Nat) : Decidable (l₁.Perm l₂) :=
  decidable_of_iff _ List.isPerm_iff

instance decWellFormed (s : Config) : Decidable (wellFormed s) :=
  inferInstanceAs (Decidable (s.length = 3 ∧ ∀ r ∈ s, r.length = 3))

instance decIsPermutation (s : Config) : Decidable (isPermutation s) :=
  inferInstanceAs (Decidable (wellFormed s ∧ s.flatten.Perm (List.range 9)))

/-- Specification-level description of one legal move: `t` is obtained from
`s` by swapping the blank (the cell holding 0) with one orthogonally
adjacent in-bounds cell. -/
def adjacentSwap (s t : Config) : Prop :=
  ∃ i j mi mj : Nat, i < 3 ∧ j < 3 ∧ mi < 3 ∧ mj < 3 ∧
    cellAt s i j = 0 ∧
    ((mi = i + 1 ∧ mj = j) ∨ (i = mi + 1 ∧ mj = j) ∨
     (mi = i ∧ mj = j + 1) ∨ (mi = i ∧ j = mj + 1)) ∧
    t = swapCells s i j mi mj

/-- `validFrom s p`: the configurations of `p`, in order, form a legal walk
starting at `s` (each element is a `get_neighbors`-successor of the
previous one).  The start `s` itself is not an element of `p`, matching the
paths built by the breadth-first searches. -/
def validFrom : Config → List Config → Prop
  | _, [] => True
  | s, t :: rest => t ∈ get_neighbors s ∧ validFrom t rest

instance decValidFrom : (s : Config) → (p : List Config) → Decidable (validFrom s p)
  | _, [] => .isTrue trivial
  | s, t :: rest =>
      have : Decidable (validFrom t rest) := decValidFrom t rest
      inferInstanceAs (Decidable (_ ∧ _))

/-- The endpoint of the walk `p` started at `s`. -/
def pathEnd (s : Config) (p : List Config) : Config := p.getLastD s

/-- `t` is reachable from `s` in exactly `n` moves. -/
def reachN (n : Nat) (s t : Config) : Prop :=
  ∃ p, validFrom s p ∧ p.length = n ∧ pathEnd s p = t

/-- `t` is reachable from `s`. -/
def reaches (s t : Config) : Prop :=
  ∃ p, validFrom s p ∧ pathEnd s p = t

/-- Swapping two elements of a list (separated arbitrarily) is a permutation. -/
theorem perm_swap_middle {α : Type} (x y : α) (l₁ l₂ l₃ : List α) :
    List.Perm (l₁ ++ x :: l₂ ++ y :: l₃) (l₁ ++ y :: l₂ ++ x :: l₃) := by
  induction l₁ with
  | nil =>
      exact (List.Perm.cons x List.perm_middle).trans
        ((List.Perm.swap y x _).trans (List.Perm.cons y List.perm_middle.symm))
  | cons a l ih => exact ih.cons a

/-- A well-formed grid is a 3×3 nested list literal. -/
theorem shape_of_wf (s : Config) (h : wellFormed s) :
    ∃ x0 x1 x2 x3 x4 x5 x6 x7 x8,
      s = [[x0,x1,x2],[x3,x4,x5],[x6,x7,x8]] := by
  obtain ⟨hlen, hrow⟩ := h
  obtain ⟨r0, r1, r2, rfl⟩ := List.length_eq_three.1 hlen
  obtain ⟨x0, x1, x2, rfl⟩ := List.length_eq_three.1 (hrow r0 (by simp))
  obtain ⟨x3, x4, x5, rfl⟩ := List.length_eq_three.1 (hrow r1 (by simp))
  obtain ⟨x6, x7, x8, rfl⟩ := List.length_eq_three.1 (hrow r2 (by simp))
  exact ⟨x0, x1, x2, x3, x4, x5, x6, x7, x8, rfl⟩

/-- A permutation grid is a 3×3 literal whose cells, flattened, permute `0..8`. -/
theorem shape_of_perm (s : Config) (h : isPermutation s) :
    ∃ x0 x1 x2 x3 x4 x5 x6 x7 x8,
      s = [[x0,x1,x2],[x3,x4,x5],[x6,x7,x8]] ∧
      List.Perm [x0,x1,x2,x3,x4,x5,x6,x7,x8] (List.range 9) := by
  obtain ⟨x0, x1, x2, x3, x4, x5, x6, x7, x8, rfl⟩ := shape_of_wf s h.1
  exact ⟨x0, x1, x2, x3, x4, x5, x6, x7, x8, rfl, by simpa using h.2⟩
/-- In a permutation grid, some cell holds the blank value 0. -/
theorem zero_cases (x0 x1 x2 x3 x4 x5 x6 x7 x8 : Nat)
    (hperm : List.Perm [x0,x1,x2,x3,x4,x5,x6,x7,x8] (List.range 9)) :
    0 = x0 ∨ 0 = x1 ∨ 0 = x2 ∨ 0 = x3 ∨ 0 = x4 ∨ 0 = x5 ∨ 0 = x6 ∨ 0 = x7 ∨ 0 = x8 := by
  have h0 : (0 : Nat) ∈ ([x0,x1,x2,x3,x4,x5,x6,x7,x8] : List Nat) := hperm.mem_iff.mpr (by decide)
  simpa only [List.mem_cons, List.not_mem_nil, or_false] using h0

/-- With the blank at flat position 0, every other cell of a permutation grid is non-zero. -/
theorem nz0 (x0 x1 x2 x3 x4 x5 x6 x7 x8 : Nat)
    (hperm : List.Perm [x0,x1,x2,x3,x4,x5,x6,x7,x8] (List.range 9)) (hz : x0 = 0) :
    x1 ≠ 0 ∧ x2 ≠ 0 ∧ x3 ≠ 0 ∧ x4 ≠ 0 ∧ x5 ≠ 0 ∧ x6 ≠ 0 ∧ x7 ≠ 0 ∧ x8 ≠ 0 := by
  have hnd : ([x0,x1,x2,x3,x4,x5,x6,x7,x8] : List Nat).Nodup :=
    hperm.nodup_iff.mpr (List.nodup_range 9)
  subst hz
  simp only [List.nodup_cons, List.mem_cons, List.not_mem_nil, List.nodup_nil,
    or_false, and_true, not_or, not_false_iff] at hnd
  exact ⟨fun h => hnd.1.1 h.symm,
    fun h => hnd.1.2.1 h.symm,
    fun h => hnd.1.2.2.1 h.symm,
    fun h => hnd.1.2.2.2.1 h.symm,
    fun h => hnd.1.2.2.2.2.1 h.symm,
    fun h => hnd.1.2.2.2.2.2.1 h.symm,
    fun h => hnd.1.2.2.2.2.2.2.1 h.symm,
    fun h => hnd.1.2.2.2.2.2.2.2 h.symm⟩

/-- With the blank at flat position 1, every other cell of a permutation grid is non-zero. -/
theorem nz1 (x0 x1 x2 x3 x4 x5 x6 x7 x8 : Nat)
    (hperm : List.Perm [x0,x1,x2,x3,x4,x5,x6,x7,x8] (List.range 9)) (hz : x1 = 0) :
    x0 ≠ 0 ∧ x2 ≠ 0 ∧ x3 ≠ 0 ∧ x4 ≠ 0 ∧ x5 ≠ 0 ∧ x6 ≠ 0 ∧ x7 ≠ 0 ∧ x8 ≠ 0 := by
  have hnd : ([x0,x1,x2,x3,x4,x5,x6,x7,x8] : List Nat).Nodup :=
    hperm.nodup_iff.mpr (List.nodup_range 9)
  subst hz
  simp only [List.nodup_cons, List.mem_cons, List.not_mem_nil, List.nodup_nil,
    or_false, and_true, not_or, not_false_iff] at hnd
  exact ⟨hnd.1.1,
    fun h => hnd.2.1.1 h.symm,
    fun h => hnd.2.1.2.1 h.symm,
    fun h => hnd.2.1.2.2.1 h.symm,
    fun h => hnd.2.1.2.2.2.1 h.symm,
    fun h => hnd.2.1.2.2.2.2.1 h.symm,
    fun h => hnd.2.1.2.2.2.2.2.1 h.symm,
    fun h => hnd.2.1.2.2.2.2.2.2 h.symm⟩

/-- With the blank at flat position 2, every other cell of a permutation grid is non-zero. -/
theorem nz2 (x0 x1 x2 x3 x4 x5 x6 x7 x8 : Nat)
    (hperm : List.Perm [x0,x1,x2,x3,x4,x5,x6,x7,x8] (List.range 9)) (hz : x2 = 0) :
    x0 ≠ 0 ∧ x1 ≠ 0 ∧ x3 ≠ 0 ∧ x4 ≠ 0 ∧ x5 ≠ 0 ∧ x6 ≠ 0 ∧ x7 ≠ 0 ∧ x8 ≠ 0 := by
  have hnd : ([x0,x1,x2,x3,x4,x5,x6,x7,x8] : List Nat).Nodup :=
    hperm.nodup_iff.mpr (List.nodup_range 9)
  subst hz
  simp only [List.nodup_cons, List.mem_cons, List.not_mem_nil, List.nodup_nil,
    or_false, and_true, not_or, not_false_iff] at hnd
  exact ⟨hnd.1.2.1,
    hnd.2.1.1,
    fun h => hnd.2.2.1.1 h.symm,
    fun h => hnd.2.2.1.2.1 h.symm,
    fun h => hnd.2.2.1.2.2.1 h.symm,
    fun h => hnd.2.2.1.2.2.2.1 h.symm,
    fun h => hnd.2.2.1.2.2.2.2.1 h.symm,
    fun h => hnd.2.2.1.2.2.2.2.2 h.symm⟩

/-- With the blank at flat position 3, every other cell of a permutation grid is non-zero. -/
theorem nz3 (x0 x1 x2 x3 x4 x5 x6 x7 x8 : Nat)
    (hperm : List.Perm [x0,x1,x2,x3,x4,x5,x6,x7,x8] (List.range 9)) (hz : x3 = 0) :
    x0 ≠ 0 ∧ x1 ≠ 0 ∧ x2 ≠ 0 ∧ x4 ≠ 0 ∧ x5 ≠ 0 ∧ x6 ≠ 0 ∧ x7 ≠ 0 ∧ x8 ≠ 0 := by
  have hnd : ([x0,x1,x2,x3,x4,x5,x6,x7,x8] : List Nat).Nodup :=
    hperm.nodup_iff.mpr (List.nodup_range 9)
  subst hz
  simp only [List.nodup_cons, List.mem_cons, List.not_mem_nil, List.nodup_nil,
    or_false, and_true, not_or, not_false_iff] at hnd
  exact ⟨hnd.1.2.2.1,
    hnd.2.1.2.1,
    hnd.2.2.1.1,
    fun h => hnd.2.2.2.1.1 h.symm,
    fun h => hnd.2.2.2.1.2.1 h.symm,
    fun h => hnd.2.2.2.1.2.2.1 h.symm,
    fun h => hnd.2.2.2.1.2.2.2.1 h.symm,
    fun h => hnd.2.2.2.1.2.2.2.2 h.symm⟩

/-- With the blank at flat position 4, every other cell of a permutation grid is non-zero. -/
theorem nz4 (x0 x1 x2 x3 x4 x5 x6 x7 x8 : Nat)
    (hperm : List.Perm [x0,x1,x2,x3,x4,x5,x6,x7,x8] (List.range 9)) (hz : x4 = 0) :
    x0 ≠ 0 ∧ x1 ≠ 0 ∧ x2 ≠ 0 ∧ x3 ≠ 0 ∧ x5 ≠ 0 ∧ x6 ≠ 0 ∧ x7 ≠ 0 ∧ x8 ≠ 0 := by
  have hnd : ([x0,x1,x2,x3,x4,x5,x6,x7,x8] : List Nat).Nodup :=
    hperm.nodup_iff.mpr (List.nodup_range 9)
  subst hz
  simp only [List.nodup_cons, List.mem_cons, List.not_mem_nil, List.nodup_nil,
    or_false, and_true, not_or, not_false_iff] at hnd
  exact ⟨hnd.1.2.2.2.1,
    hnd.2.1.2.2.1,
    hnd.2.2.1.2.1,
    hnd.2.2.2.1.1,
    fun h => hnd.2.2.2.2.1.1 h.symm,
    fun h => hnd.2.2.2.2.1.2.1 h.symm,
    fun h => hnd.2.2.2.2.1.2.2.1 h.symm,
    fun h => hnd.2.2.2.2.1.2.2.2 h.symm⟩

/-- With the blank at flat position 5, every other cell of a permutation grid is non-zero. -/
theorem nz5 (x0 x1 x2 x3 x4 x5 x6 x7 x8 : Nat)
    (hperm : List.Perm [x0,x1,x2,x3,x4,x5,x6,x7,x8] (List.range 9)) (hz : x5 = 0) :
    x0 ≠ 0 ∧ x1 ≠ 0 ∧ x2 ≠ 0 ∧ x3 ≠ 0 ∧ x4 ≠ 0 ∧ x6 ≠ 0 ∧ x7 ≠ 0 ∧ x8 ≠ 0 := by
  have hnd : ([x0,x1,x2,x3,x4,x5,x6,x7,x8] : List Nat).Nodup :=
    hperm.nodup_iff.mpr (List.nodup_range 9)
  subst hz
  simp only [List.nodup_cons, List.mem_cons, List.not_mem_nil, List.nodup_nil,
    or_false, and_true, not_or, not_false_iff] at hnd
  exact ⟨hnd.1.2.2.2.2.1,
    hnd.2.1.2.2.2.1,
    hnd.2.2.1.2.2.1,
    hnd.2.2.2.1.2.1,
    hnd.2.2.2.2.1.1,
    fun h => hnd.2.2.2.2.2.1.1 h.symm,
    fun h => hnd.2.2.2.2.2.1.2.1 h.symm,
    fun h => hnd.2.2.2.2.2.1.2.2 h.symm⟩

/-- With the blank at flat position 6, every other cell of a permutation grid is non-zero. -/
theorem nz6 (x0 x1 x2 x3 x4 x5 x6 x7 x8 : Nat)
    (hperm : List.Perm [x0,x1,x2,x3,x4,x5,x6,x7,x8] (List.range 9)) (hz : x6 = 0) :
    x0 ≠ 0 ∧ x1 ≠ 0 ∧ x2 ≠ 0 ∧ x3 ≠ 0 ∧ x4 ≠ 0 ∧ x5 ≠ 0 ∧ x7 ≠ 0 ∧ x8 ≠ 0 := by
  have hnd : ([x0,x1,x2,x3,x4,x5,x6,x7,x8] : List Nat).Nodup :=
    hperm.nodup_iff.mpr (List.nodup_range 9)
  subst hz
  simp only [List.nodup_cons, List.mem_cons, List.not_mem_nil, List.nodup_nil,
    or_false, and_true, not_or, not_false_iff] at hnd
  exact ⟨hnd.1.2.2.2.2.2.1,
    hnd.2.1.2.2.2.2.1,
    hnd.2.2.1.2.2.2.1,
    hnd.2.2.2.1.2.2.1,
    hnd.2.2.2.2.1.2.1,
    hnd.2.2.2.2.2.1.1,
    fun h => hnd.2.2.2.2.2.2.1.1 h.symm,
    fun h => hnd.2.2.2.2.2.2.1.2 h.symm⟩

/-- With the blank at flat position 7, every other cell of a permutation grid is non-zero. -/
theorem nz7 (x0 x1 x2 x3 x4 x5 x6 x7 x8 : Nat)
    (hperm : List.Perm [x0,x1,x2,x3,x4,x5,x6,x7,x8] (List.range 9)) (hz : x7 = 0) :
    x0 ≠ 0 ∧ x1 ≠ 0 ∧ x2 ≠ 0 ∧ x3 ≠ 0 ∧ x4 ≠ 0 ∧ x5 ≠ 0 ∧ x6 ≠ 0 ∧ x8 ≠ 0 := by
  have hnd : ([x0,x1,x2,x3,x4,x5,x6,x7,x8] : List Nat).Nodup :=
    hperm.nodup_iff.mpr (List.nodup_range 9)
  subst hz
  simp only [List.nodup_cons, List.mem_cons, List.not_mem_nil, List.nodup_nil,
    or_false, and_true, not_or, not_false_iff] at hnd
  exact ⟨hnd.1.2.2.2.2.2.2.1,
    hnd.2.1.2.2.2.2.2.1,
    hnd.2.2.1.2.2.2.2.1,
    hnd.2.2.2.1.2.2.2.1,
    hnd.2.2.2.2.1.2.2.1,
    hnd.2.2.2.2.2.1.2.1,
    hnd.2.2.2.2.2.2.1.1,
    fun h => hnd.2.2.2.2.2.2.2 h.symm⟩

/-- With the blank at flat position 8, every other cell of a permutation grid is non-zero. -/
theorem nz8 (x0 x1 x2 x3 x4 x5 x6 x7 x8 : Nat)
    (hperm : List.Perm [x0,x1,x2,x3,x4,x5,x6,x7,x8] (List.range 9)) (hz : x8 = 0) :
    x0 ≠ 0 ∧ x1 ≠ 0 ∧ x2 ≠ 0 ∧ x3 ≠ 0 ∧ x4 ≠ 0 ∧ x5 ≠ 0 ∧ x6 ≠ 0 ∧ x7 ≠ 0 := by
  have hnd : ([x0,x1,x2,x3,x4,x5,x6,x7,x8] : List Nat).Nodup :=
    hperm.nodup_iff.mpr (List.nodup_range 9)
  subst hz
  simp only [List.nodup_cons, List.mem_cons, List.not_mem_nil, List.nodup_nil,
    or_false, and_true, not_or, not_false_iff] at hnd
  exact ⟨hnd.1.2.2.2.2.2.2.2,
    hnd.2.1.2.2.2.2.2.2,
    hnd.2.2.1.2.2.2.2.2,
    hnd.2.2.2.1.2.2.2.2,
    hnd.2.2.2.2.1.2.2.2,
    hnd.2.2.2.2.2.1.2.2,
    hnd.2.2.2.2.2.2.1.2,
    hnd.2.2.2.2.2.2.2⟩

/-- `get_blank_position` on a grid whose first zero in scan order sits at flat position 0. -/
theorem blank0 (x0 x1 x2 x3 x4 x5 x6 x7 x8 : Nat)
    (hz : x0 = 0) :
    get_blank_position [[x0,x1,x2],[x3,x4,x5],[x6,x7,x8]] = some (0, 0) := by
  simp [get_blank_position, List.range, List.range.loop, List.findSome?, cellAt, hz]

/-- `get_blank_position` on a grid whose first zero in scan order sits at flat position 1. -/
theorem blank1 (x0 x1 x2 x3 x4 x5 x6 x7 x8 : Nat)
    (h0 : x0 ≠ 0) (hz : x1 = 0) :
    get_blank_position [[x0,x1,x2],[x3,x4,x5],[x6,x7,x8]] = some (0, 1) := by
  simp [get_blank_position, List.range, List.range.loop, List.findSome?, cellAt, h0, hz]

/-- `get_blank_position` on a grid whose first zero in scan order sits at flat position 2. -/
theorem blank2 (x0 x1 x2 x3 x4 x5 x6 x7 x8 : Nat)
    (h0 : x0 ≠ 0) (h1 : x1 ≠ 0) (hz : x2 = 0) :
    get_blank_position [[x0,x1,x2],[x3,x4,x5],[x6,x7,x8]] = some (0, 2) := by
  simp [get_blank_position, List.range, List.range.loop, List.findSome?, cellAt, h0, h1, hz]

/-- `get_blank_position` on a grid whose first zero in scan order sits at flat position 3. -/
theorem blank3 (x0 x1 x2 x3 x4 x5 x6 x7 x8 : Nat)
    (h0 : x0 ≠ 0) (h1 : x1 ≠ 0) (h2 : x2 ≠ 0) (hz : x3 = 0) :
    get_blank_position [[x0,x1,x2],[x3,x4,x5],[x6,x7,x8]] = some (1, 0) := by
  simp [get_blank_position, List.range, List.range.loop, List.findSome?, cellAt, h0, h1, h2, hz]

/-- `get_blank_position` on a grid whose first zero in scan order sits at flat position 4. -/
theorem blank4 (x0 x1 x2 x3 x4 x5 x6 x7 x8 : Nat)
    (h0 : x0 ≠ 0) (h1 : x1 ≠ 0) (h2 : x2 ≠ 0) (h3 : x3 ≠ 0) (hz : x4 = 0) :
    get_blank_position [[x0,x1,x2],[x3,x4,x5],[x6,x7,x8]] = some (1, 1) := by
  simp [get_blank_position, List.range, List.range.loop, List.findSome?, cellAt, h0, h1, h2, h3, hz]

/-- `get_blank_position` on a grid whose first zero in scan order sits at flat position 5. -/
theorem blank5 (x0 x1 x2 x3 x4 x5 x6 x7 x8 : Nat)
    (h0 : x0 ≠ 0) (h1 : x1 ≠ 0) (h2 : x2 ≠ 0) (h3 : x3 ≠ 0) (h4 : x4 ≠ 0) (hz : x5 = 0) :
    get_blank_position [[x0,x1,x2],[x3,x4,x5],[x6,x7,x8]] = some (1, 2) := by
  simp [get_blank_position, List.range, List.range.loop, List.findSome?, cellAt, h0, h1, h2, h3, h4, hz]

/-- `get_blank_position` on a grid whose first zero in scan order sits at flat position 6. -/
theorem blank6 (x0 x1 x2 x3 x4 x5 x6 x7 x8 : Nat)
    (h0 : x0 ≠ 0) (h1 : x1 ≠ 0) (h2 : x2 ≠ 0) (h3 : x3 ≠ 0) (h4 : x4 ≠ 0) (h5 : x5 ≠ 0) (hz : x6 = 0) :
    get_blank_position [[x0,x1,x2],[x3,x4,x5],[x6,x7,x8]] = some (2, 0) := by
  simp [get_blank_position, List.range, List.range.loop, List.findSome?, cellAt, h0, h1, h2, h3, h4, h5, hz]

/-- `get_blank_position` on a grid whose first zero in scan order sits at flat position 7. -/
theorem blank7 (x0 x1 x2 x3 x4 x5 x6 x7 x8 : Nat)
    (h0 : x0 ≠ 0) (h1 : x1 ≠ 0) (h2 : x2 ≠ 0) (h3 : x3 ≠ 0) (h4 : x4 ≠ 0) (h5 : x5 ≠ 0) (h6 : x6 ≠ 0) (hz : x7 = 0) :
    get_blank_position [[x0,x1,x2],[x3,x4,x5],[x6,x7,x8]] = some (2, 1) := by
  simp [get_blank_position, List.range, List.range.loop, List.findSome?, cellAt, h0, h1, h2, h3, h4, h5, h6, hz]

/-- `get_blank_position` on a grid whose first zero in scan order sits at flat position 8. -/
theorem blank8 (x0 x1 x2 x3 x4 x5 x6 x7 x8 : Nat)
    (h0 : x0 ≠ 0) (h1 : x1 ≠ 0) (h2 : x2 ≠ 0) (h3 : x3 ≠ 0) (h4 : x4 ≠ 0) (h5 : x5 ≠ 0) (h6 : x6 ≠ 0) (h7 : x7 ≠ 0) (hz : x8 = 0) :
    get_blank_position [[x0,x1,x2],[x3,x4,x5],[x6,x7,x8]] = some (2, 2) := by
  simp [get_blank_position, List.range, List.range.loop, List.findSome?, cellAt, h0, h1, h2, h3, h4, h5, h6, h7, hz]

/-- `get_neighbors` with the blank at flat position 0: the swaps, in up/down/left/right order. -/
theorem nbrs0 (x0 x1 x2 x3 x4 x5 x6 x7 x8 : Nat)
    (hz : x0 = 0) :
    get_neighbors [[x0,x1,x2],[x3,x4,x5],[x6,x7,x8]] =
      [[[x3,x1,x2],[x0,x4,x5],[x6,x7,x8]],
       [[x1,x0,x2],[x3,x4,x5],[x6,x7,x8]]] := by
  unfold get_neighbors
  rw [blank0 x0 x1 x2 x3 x4 x5 x6 x7 x8 hz]
  rfl

/-- `get_neighbors` with the blank at flat position 1: the swaps, in up/down/left/right order. -/
theorem nbrs1 (x0 x1 x2 x3 x4 x5 x6 x7 x8 : Nat)
    (h0 : x0 ≠ 0) (hz : x1 = 0) :
    get_neighbors [[x0,x1,x2],[x3,x4,x5],[x6,x7,x8]] =
      [[[x0,x4,x2],[x3,x1,x5],[x6,x7,x8]],
       [[x1,x0,x2],[x3,x4,x5],[x6,x7,x8]],
       [[x0,x2,x1],[x3,x4,x5],[x6,x7,x8]]] := by
  unfold get_neighbors
  rw [blank1 x0 x1 x2 x3 x4 x5 x6 x7 x8 h0 hz]
  rfl

/-- `get_neighbors` with the blank at flat position 2: the swaps, in up/down/left/right order. -/
theorem nbrs2 (x0 x1 x2 x3 x4 x5 x6 x7 x8 : Nat)
    (h0 : x0 ≠ 0) (h1 : x1 ≠ 0) (hz : x2 = 0) :
    get_neighbors [[x0,x1,x2],[x3,x4,x5],[x6,x7,x8]] =
      [[[x0,x1,x5],[x3,x4,x2],[x6,x7,x8]],
       [[x0,x2,x1],[x3,x4,x5],[x6,x7,x8]]] := by
  unfold get_neighbors
  rw [blank2 x0 x1 x2 x3 x4 x5 x6 x7 x8 h0 h1 hz]
  rfl

/-- `get_neighbors` with the blank at flat position 3: the swaps, in up/down/left/right order. -/
theorem nbrs3 (x0 x1 x2 x3 x4 x5 x6 x7 x8 : Nat)
    (h0 : x0 ≠ 0) (h1 : x1 ≠ 0) (h2 : x2 ≠ 0) (hz : x3 = 0) :
    get_neighbors [[x0,x1,x2],[x3,x4,x5],[x6,x7,x8]] =
      [[[x3,x1,x2],[x0,x4,x5],[x6,x7,x8]],
       [[x0,x1,x2],[x6,x4,x5],[x3,x7,x8]],
       [[x0,x1,x2],[x4,x3,x5],[x6,x7,x8]]] := by
  unfold get_neighbors
  rw [blank3 x0 x1 x2 x3 x4 x5 x6 x7 x8 h0 h1 h2 hz]
  rfl

/-- `get_neighbors` with the blank at flat position 4: the swaps, in up/down/left/right order. -/
theorem nbrs4 (x0 x1 x2 x3 x4 x5 x6 x7 x8 : Nat)
    (h0 : x0 ≠ 0) (h1 : x1 ≠ 0) (h2 : x2 ≠ 0) (h3 : x3 ≠ 0) (hz : x4 = 0) :
    get_neighbors [[x0,x1,x2],[x3,x4,x5],[x6,x7,x8]] =
      [[[x0,x4,x2],[x3,x1,x5],[x6,x7,x8]],
       [[x0,x1,x2],[x3,x7,x5],[x6,x4,x8]],
       [[x0,x1,x2],[x4,x3,x5],[x6,x7,x8]],
       [[x0,x1,x2],[x3,x5,x4],[x6,x7,x8]]] := by
  unfold get_neighbors
  rw [blank4 x0 x1 x2 x3 x4 x5 x6 x7 x8 h0 h1 h2 h3 hz]
  rfl

/-- `get_neighbors` with the blank at flat position 5: the swaps, in up/down/left/right order. -/
theorem nbrs5 (x0 x1 x2 x3 x4 x5 x6 x7 x8 : Nat)
    (h0 : x0 ≠ 0) (h1 : x1 ≠ 0) (h2 : x2 ≠ 0) (h3 : x3 ≠ 0) (h4 : x4 ≠ 0) (hz : x5 = 0) :
    get_neighbors [[x0,x1,x2],[x3,x4,x5],[x6,x7,x8]] =
      [[[x0,x1,x5],[x3,x4,x2],[x6,x7,x8]],
       [[x0,x1,x2],[x3,x4,x8],[x6,x7,x5]],
       [[x0,x1,x2],[x3,x5,x4],[x6,x7,x8]]] := by
  unfold get_neighbors
  rw [blank5 x0 x1 x2 x3 x4 x5 x6 x7 x8 h0 h1 h2 h3 h4 hz]
  rfl

/-- `get_neighbors` with the blank at flat position 6: the swaps, in up/down/left/right order. -/
theorem nbrs6 (x0 x1 x2 x3 x4 x5 x6 x7 x8 : Nat)
    (h0 : x0 ≠ 0) (h1 : x1 ≠ 0) (h2 : x2 ≠ 0) (h3 : x3 ≠ 0) (h4 : x4 ≠ 0) (h5 : x5 ≠ 0) (hz : x6 = 0) :
    get_neighbors [[x0,x1,x2],[x3,x4,x5],[x6,x7,x8]] =
      [[[x0,x1,x2],[x6,x4,x5],[x3,x7,x8]],
       [[x0,x1,x2],[x3,x4,x5],[x7,x6,x8]]] := by
  unfold get_neighbors
  rw [blank6 x0 x1 x2 x3 x4 x5 x6 x7 x8 h0 h1 h2 h3 h4 h5 hz]
  rfl

/-- `get_neighbors` with the blank at flat position 7: the swaps, in up/down/left/right order. -/
theorem nbrs7 (x0 x1 x2 x3 x4 x5 x6 x7 x8 : Nat)
    (h0 : x0 ≠ 0) (h1 : x1 ≠ 0) (h2 : x2 ≠ 0) (h3 : x3 ≠ 0) (h4 : x4 ≠ 0) (h5 : x5 ≠ 0) (h6 : x6 ≠ 0) (hz : x7 = 0) :
    get_neighbors [[x0,x1,x2],[x3,x4,x5],[x6,x7,x8]] =
      [[[x0,x1,x2],[x3,x7,x5],[x6,x4,x8]],
       [[x0,x1,x2],[x3,x4,x5],[x7,x6,x8]],
       [[x0,x1,x2],[x3,x4,x5],[x6,x8,x7]]] := by
  unfold get_neighbors
  rw [blank7 x0 x1 x2 x3 x4 x5 x6 x7 x8 h0 h1 h2 h3 h4 h5 h6 hz]
  rfl

/-- `get_neighbors` with the blank at flat position 8: the swaps, in up/down/left/right order. -/
theorem nbrs8 (x0 x1 x2 x3 x4 x5 x6 x7 x8 : Nat)
    (h0 : x0 ≠ 0) (h1 : x1 ≠ 0) (h2 : x2 ≠ 0) (h3 : x3 ≠ 0) (h4 : x4 ≠ 0) (h5 : x5 ≠ 0) (h6 : x6 ≠ 0) (h7 : x7 ≠ 0) (hz : x8 = 0) :
    get_neighbors [[x0,x1,x2],[x3,x4,x5],[x6,x7,x8]] =
      [[[x0,x1,x2],[x3,x4,x8],[x6,x7,x5]],
       [[x0,x1,x2],[x3,x4,x5],[x6,x8,x7]]] := by
  unfold get_neighbors
  rw [blank8 x0 x1 x2 x3 x4 x5 x6 x7 x8 h0 h1 h2 h3 h4 h5 h6 h7 hz]
  rfl


/-- Number of inversions of a list: pairs appearing in descending order. -/
def inversions : List Nat → Nat
  | [] => 0
  | x :: xs => (xs.filter (fun y => decide (y < x))).length + inversions xs

/-- Inversions across an append boundary. -/
def crossInv (A B : List Nat) : Nat :=
  (A.map (fun a => (B.filter (fun y => decide (y < a))).length)).sum

theorem inversions_append (A B : List Nat) :
    inversions (A ++ B) = inversions A + inversions B + crossInv A B := by
  induction A with
  | nil => simp [inversions, crossInv]
  | cons a A ih =>
      simp only [List.cons_append, inversions, List.filter_append, List.length_append,
        ih, crossInv, List.map_cons, List.sum_cons, List.append_eq]
      omega

theorem crossInv_right_perm (A : List Nat) {B B' : List Nat} (h : List.Perm B B') :
    crossInv A B = crossInv A B' := by
  have hf : ∀ a : Nat, (B.filter (fun y => decide (y < a))).length
      = (B'.filter (fun y => decide (y < a))).length :=
    fun a => (h.filter _).length_eq
  simp only [crossInv, hf]

theorem crossInv_left_perm {A A' : List Nat} (B : List Nat) (h : List.Perm A A') :
    crossInv A B = crossInv A' B :=
  (h.map _).sum_eq

theorem inv3_parity (u v w : Nat) (huv : u ≠ v) (huw : u ≠ w) (hvw : v ≠ w) :
    inversions [u, v, w] % 2 = inversions [w, u, v] % 2 := by
  simp only [inversions, List.filter_cons, List.filter_nil]
  split_ifs <;> simp_all [decide_eq_true_eq] <;> omega

theorem perm3 (u v w : Nat) : List.Perm [u, v, w] [w, u, v] :=
  (List.Perm.cons u (List.Perm.swap w v [])).trans (List.Perm.swap w u [v])

theorem inv_window (A B : List Nat) (u v w : Nat) (huv : u ≠ v) (huw : u ≠ w) (hvw : v ≠ w) :
    inversions (A ++ u :: v :: w :: B) % 2 = inversions (A ++ w :: u :: v :: B) % 2 := by
  have hM := perm3 u v w
  have e1 := inversions_append A ([u, v, w] ++ B)
  have e2 := inversions_append A ([w, u, v] ++ B)
  have e3 := inversions_append [u, v, w] B
  have e4 := inversions_append [w, u, v] B
  have e5 : crossInv A ([u, v, w] ++ B) = crossInv A ([w, u, v] ++ B) :=
    crossInv_right_perm A (hM.append_right B)
  have e6 : crossInv [u, v, w] B = crossInv [w, u, v] B := crossInv_left_perm B hM
  have e7 := inv3_parity u v w huv huw hvw
  simp only [List.append_assoc, List.cons_append, List.nil_append] at e1 e2 e3 e4 e5 e6
  omega

/-- The non-blank cells of a grid in row-major order. -/
def tiles (s : Config) : List Nat := s.flatten.filter (fun v => decide (v ≠ 0))
/-- Master case analysis of `get_neighbors` on permutation grids: blank
position, neighbor count by corner/edge/center, and each neighbor is a legal
adjacent blank swap and again a permutation. -/
theorem neighbors_complete (s : Config) (hs : isPermutation s) :
    ∃ i j, get_blank_position s = some (i, j) ∧ i < 3 ∧ j < 3 ∧
      (get_neighbors s).length =
        (if i = 1 ∧ j = 1 then 4 else if i = 1 ∨ j = 1 then 3 else 2) ∧
      ∀ t ∈ get_neighbors s, adjacentSwap s t ∧ isPermutation t := by
  obtain ⟨x0, x1, x2, x3, x4, x5, x6, x7, x8, rfl, hperm⟩ := shape_of_perm s hs
  rcases zero_cases x0 x1 x2 x3 x4 x5 x6 x7 x8 hperm with hz|hz|hz|hz|hz|hz|hz|hz|hz
  · have hz' := hz.symm
    obtain ⟨n1, n2, n3, n4, n5, n6, n7, n8⟩ := nz0 x0 x1 x2 x3 x4 x5 x6 x7 x8 hperm hz'
    refine ⟨0, 0, blank0 x0 x1 x2 x3 x4 x5 x6 x7 x8 hz', by omega, by omega, ?_, ?_⟩
    · rw [nbrs0 x0 x1 x2 x3 x4 x5 x6 x7 x8 hz']
      rfl
    · intro t ht
      rw [nbrs0 x0 x1 x2 x3 x4 x5 x6 x7 x8 hz'] at ht
      simp only [List.mem_cons, List.not_mem_nil, or_false] at ht
      rcases ht with rfl | rfl
      · exact ⟨⟨0, 0, 1, 0, by omega, by omega, by omega, by omega, hz', by omega, rfl⟩,
          ⟨⟨rfl, by simp⟩, (perm_swap_middle x0 x3 [] [x1,x2] [x4,x5,x6,x7,x8]).symm.trans hperm⟩⟩
      · exact ⟨⟨0, 0, 0, 1, by omega, by omega, by omega, by omega, hz', by omega, rfl⟩,
          ⟨⟨rfl, by simp⟩, (perm_swap_middle x0 x1 [] [] [x2,x3,x4,x5,x6,x7,x8]).symm.trans hperm⟩⟩
  · have hz' := hz.symm
    obtain ⟨n0, n2, n3, n4, n5, n6, n7, n8⟩ := nz1 x0 x1 x2 x3 x4 x5 x6 x7 x8 hperm hz'
    refine ⟨0, 1, blank1 x0 x1 x2 x3 x4 x5 x6 x7 x8 n0 hz', by omega, by omega, ?_, ?_⟩
    · rw [nbrs1 x0 x1 x2 x3 x4 x5 x6 x7 x8 n0 hz']
      rfl
    · intro t ht
      rw [nbrs1 x0 x1 x2 x3 x4 x5 x6 x7 x8 n0 hz'] at ht
      simp only [List.mem_cons, List.not_mem_nil, or_false] at ht
      rcases ht with rfl | rfl | rfl
      · exact ⟨⟨0, 1, 1, 1, by omega, by omega, by omega, by omega, hz', by omega, rfl⟩,
          ⟨⟨rfl, by simp⟩, (perm_swap_middle x1 x4 [x0] [x2,x3] [x5,x6,x7,x8]).symm.trans hperm⟩⟩
      · exact ⟨⟨0, 1, 0, 0, by omega, by omega, by omega, by omega, hz', by omega, rfl⟩,
          ⟨⟨rfl, by simp⟩, (perm_swap_middle x0 x1 [] [] [x2,x3,x4,x5,x6,x7,x8]).symm.trans hperm⟩⟩
      · exact ⟨⟨0, 1, 0, 2, by omega, by omega, by omega, by omega, hz', by omega, rfl⟩,
          ⟨⟨rfl, by simp⟩, (perm_swap_middle x1 x2 [x0] [] [x3,x4,x5,x6,x7,x8]).symm.trans hperm⟩⟩
  · have hz' := hz.symm
    obtain ⟨n0, n1, n3, n4, n5, n6, n7, n8⟩ := nz2 x0 x1 x2 x3 x4 x5 x6 x7 x8 hperm hz'
    refine ⟨0, 2, blank2 x0 x1 x2 x3 x4 x5 x6 x7 x8 n0 n1 hz', by omega, by omega, ?_, ?_⟩
    · rw [nbrs2 x0 x1 x2 x3 x4 x5 x6 x7 x8 n0 n1 hz']
      rfl
    · intro t ht
      rw [nbrs2 x0 x1 x2 x3 x4 x5 x6 x7 x8 n0 n1 hz'] at ht
      simp only [List.mem_cons, List.not_mem_nil, or_false] at ht
      rcases ht with rfl | rfl
      · exact ⟨⟨0, 2, 1, 2, by omega, by omega, by omega, by omega, hz', by omega, rfl⟩,
          ⟨⟨rfl, by simp⟩, (perm_swap_middle x2 x5 [x0,x1] [x3,x4] [x6,x7,x8]).symm.trans hperm⟩⟩
      · exact ⟨⟨0, 2, 0, 1, by omega, by omega, by omega, by omega, hz', by omega, rfl⟩,
          ⟨⟨rfl, by simp⟩, (perm_swap_middle x1 x2 [x0] [] [x3,x4,x5,x6,x7,x8]).symm.trans hperm⟩⟩
  · have hz' := hz.symm
    obtain ⟨n0, n1, n2, n4, n5, n6, n7, n8⟩ := nz3 x0 x1 x2 x3 x4 x5 x6 x7 x8 hperm hz'
    refine ⟨1, 0, blank3 x0 x1 x2 x3 x4 x5 x6 x7 x8 n0 n1 n2 hz', by omega, by omega, ?_, ?_⟩
    · rw [nbrs3 x0 x1 x2 x3 x4 x5 x6 x7 x8 n0 n1 n2 hz']
      rfl
    · intro t ht
      rw [nbrs3 x0 x1 x2 x3 x4 x5 x6 x7 x8 n0 n1 n2 hz'] at ht
      simp only [List.mem_cons, List.not_mem_nil, or_false] at ht
      rcases ht with rfl | rfl | rfl
      · exact ⟨⟨1, 0, 0, 0, by omega, by omega, by omega, by omega, hz', by omega, rfl⟩,
          ⟨⟨rfl, by simp⟩, (perm_swap_middle x0 x3 [] [x1,x2] [x4,x5,x6,x7,x8]).symm.trans hperm⟩⟩
      · exact ⟨⟨1, 0, 2, 0, by omega, by omega, by omega, by omega, hz', by omega, rfl⟩,
          ⟨⟨rfl, by simp⟩, (perm_swap_middle x3 x6 [x0,x1,x2] [x4,x5] [x7,x8]).symm.trans hperm⟩⟩
      · exact ⟨⟨1, 0, 1, 1, by omega, by omega, by omega, by omega, hz', by omega, rfl⟩,
          ⟨⟨rfl, by simp⟩, (perm_swap_middle x3 x4 [x0,x1,x2] [] [x5,x6,x7,x8]).symm.trans hperm⟩⟩
  · have hz' := hz.symm
    obtain ⟨n0, n1, n2, n3, n5, n6, n7, n8⟩ := nz4 x0 x1 x2 x3 x4 x5 x6 x7 x8 hperm hz'
    refine ⟨1, 1, blank4 x0 x1 x2 x3 x4 x5 x6 x7 x8 n0 n1 n2 n3 hz', by omega, by omega, ?_, ?_⟩
    · rw [nbrs4 x0 x1 x2 x3 x4 x5 x6 x7 x8 n0 n1 n2 n3 hz']
      rfl
    · intro t ht
      rw [nbrs4 x0 x1 x2 x3 x4 x5 x6 x7 x8 n0 n1 n2 n3 hz'] at ht
      simp only [List.mem_cons, List.not_mem_nil, or_false] at ht
      rcases ht with rfl | rfl | rfl | rfl
      · exact ⟨⟨1, 1, 0, 1, by omega, by omega, by omega, by omega, hz', by omega, rfl⟩,
          ⟨⟨rfl, by simp⟩, (perm_swap_middle x1 x4 [x0] [x2,x3] [x5,x6,x7,x8]).symm.trans hperm⟩⟩
      · exact ⟨⟨1, 1, 2, 1, by omega, by omega, by omega, by omega, hz', by omega, rfl⟩,
          ⟨⟨rfl, by simp⟩, (perm_swap_middle x4 x7 [x0,x1,x2,x3] [x5,x6] [x8]).symm.trans hperm⟩⟩
      · exact ⟨⟨1, 1, 1, 0, by omega, by omega, by omega, by omega, hz', by omega, rfl⟩,
          ⟨⟨rfl, by simp⟩, (perm_swap_middle x3 x4 [x0,x1,x2] [] [x5,x6,x7,x8]).symm.trans hperm⟩⟩
      · exact ⟨⟨1, 1, 1, 2, by omega, by omega, by omega, by omega, hz', by omega, rfl⟩,
          ⟨⟨rfl, by simp⟩, (perm_swap_middle x4 x5 [x0,x1,x2,x3] [] [x6,x7,x8]).symm.trans hperm⟩⟩
  · have hz' := hz.symm
    obtain ⟨n0, n1, n2, n3, n4, n6, n7, n8⟩ := nz5 x0 x1 x2 x3 x4 x5 x6 x7 x8 hperm hz'
    refine ⟨1, 2, blank5 x0 x1 x2 x3 x4 x5 x6 x7 x8 n0 n1 n2 n3 n4 hz', by omega, by omega, ?_, ?_⟩
    · rw [nbrs5 x0 x1 x2 x3 x4 x5 x6 x7 x8 n0 n1 n2 n3 n4 hz']
      rfl
    · intro t ht
      rw [nbrs5 x0 x1 x2 x3 x4 x5 x6 x7 x8 n0 n1 n2 n3 n4 hz'] at ht
      simp only [List.mem_cons, List.not_mem_nil, or_false] at ht
      rcases ht with rfl | rfl | rfl
      · exact ⟨⟨1, 2, 0, 2, by omega, by omega, by omega, by omega, hz', by omega, rfl⟩,
          ⟨⟨rfl, by simp⟩, (perm_swap_middle x2 x5 [x0,x1] [x3,x4] [x6,x7,x8]).symm.trans hperm⟩⟩
      · exact ⟨⟨1, 2, 2, 2, by omega, by omega, by omega, by omega, hz', by omega, rfl⟩,
          ⟨⟨rfl, by simp⟩, (perm_swap_middle x5 x8 [x0,x1,x2,x3,x4] [x6,x7] []).symm.trans hperm⟩⟩
      · exact ⟨⟨1, 2, 1, 1, by omega, by omega, by omega, by omega, hz', by omega, rfl⟩,
          ⟨⟨rfl, by simp⟩, (perm_swap_middle x4 x5 [x0,x1,x2,x3] [] [x6,x7,x8]).symm.trans hperm⟩⟩
  · have hz' := hz.symm
    obtain ⟨n0, n1, n2, n3, n4, n5, n7, n8⟩ := nz6 x0 x1 x2 x3 x4 x5 x6 x7 x8 hperm hz'
    refine ⟨2, 0, blank6 x0 x1 x2 x3 x4 x5 x6 x7 x8 n0 n1 n2 n3 n4 n5 hz', by omega, by omega, ?_, ?_⟩
    · rw [nbrs6 x0 x1 x2 x3 x4 x5 x6 x7 x8 n0 n1 n2 n3 n4 n5 hz']
      rfl
    · intro t ht
      rw [nbrs6 x0 x1 x2 x3 x4 x5 x6 x7 x8 n0 n1 n2 n3 n4 n5 hz'] at ht
      simp only [List.mem_cons, List.not_mem_nil, or_false] at ht
      rcases ht with rfl | rfl
      · exact ⟨⟨2, 0, 1, 0, by omega, by omega, by omega, by omega, hz', by omega, rfl⟩,
          ⟨⟨rfl, by simp⟩, (perm_swap_middle x3 x6 [x0,x1,x2] [x4,x5] [x7,x8]).symm.trans hperm⟩⟩
      · exact ⟨⟨2, 0, 2, 1, by omega, by omega, by omega, by omega, hz', by omega, rfl⟩,
          ⟨⟨rfl, by simp⟩, (perm_swap_middle x6 x7 [x0,x1,x2,x3,x4,x5] [] [x8]).symm.trans hperm⟩⟩
  · have hz' := hz.symm
    obtain ⟨n0, n1, n2, n3, n4, n5, n6, n8⟩ := nz7 x0 x1 x2 x3 x4 x5 x6 x7 x8 hperm hz'
    refine ⟨2, 1, blank7 x0 x1 x2 x3 x4 x5 x6 x7 x8 n0 n1 n2 n3 n4 n5 n6 hz', by omega, by omega, ?_, ?_⟩
    · rw [nbrs7 x0 x1 x2 x3 x4 x5 x6 x7 x8 n0 n1 n2 n3 n4 n5 n6 hz']
      rfl
    · intro t ht
      rw [nbrs7 x0 x1 x2 x3 x4 x5 x6 x7 x8 n0 n1 n2 n3 n4 n5 n6 hz'] at ht
      simp only [List.mem_cons, List.not_mem_nil, or_false] at ht
      rcases ht with rfl | rfl | rfl
      · exact ⟨⟨2, 1, 1, 1, by omega, by omega, by omega, by omega, hz', by omega, rfl⟩,
          ⟨⟨rfl, by simp⟩, (perm_swap_middle x4 x7 [x0,x1,x2,x3] [x5,x6] [x8]).symm.trans hperm⟩⟩
      · exact ⟨⟨2, 1, 2, 0, by omega, by omega, by omega, by omega, hz', by omega, rfl⟩,
          ⟨⟨rfl, by simp⟩, (perm_swap_middle x6 x7 [x0,x1,x2,x3,x4,x5] [] [x8]).symm.trans hperm⟩⟩
      · exact ⟨⟨2, 1, 2, 2, by omega, by omega, by omega, by omega, hz', by omega, rfl⟩,
          ⟨⟨rfl, by simp⟩, (perm_swap_middle x7 x8 [x0,x1,x2,x3,x4,x5,x6] [] []).symm.trans hperm⟩⟩
  · have hz' := hz.symm
    obtain ⟨n0, n1, n2, n3, n4, n5, n6, n7⟩ := nz8 x0 x1 x2 x3 x4 x5 x6 x7 x8 hperm hz'
    refine ⟨2, 2, blank8 x0 x1 x2 x3 x4 x5 x6 x7 x8 n0 n1 n2 n3 n4 n5 n6 n7 hz', by omega, by omega, ?_, ?_⟩
    · rw [nbrs8 x0 x1 x2 x3 x4 x5 x6 x7 x8 n0 n1 n2 n3 n4 n5 n6 n7 hz']
      rfl
    · intro t ht
      rw [nbrs8 x0 x1 x2 x3 x4 x5 x6 x7 x8 n0 n1 n2 n3 n4 n5 n6 n7 hz'] at ht
      simp only [List.mem_cons, List.not_mem_nil, or_false] at ht
      rcases ht with rfl | rfl
      · exact ⟨⟨2, 2, 1, 2, by omega, by omega, by omega, by omega, hz', by omega, rfl⟩,
          ⟨⟨rfl, by simp⟩, (perm_swap_middle x5 x8 [x0,x1,x2,x3,x4] [x6,x7] []).symm.trans hperm⟩⟩
      · exact ⟨⟨2, 2, 2, 1, by omega, by omega, by omega, by omega, hz', by omega, rfl⟩,
          ⟨⟨rfl, by simp⟩, (perm_swap_middle x7 x8 [x0,x1,x2,x3,x4,x5,x6] [] []).symm.trans hperm⟩⟩

/-- `get_blank_position` on a permutation grid finds the unique blank, and
`get_neighbors` therefore never takes its empty fallback branch. -/
theorem blank_unique (s : Config) (hs : isPermutation s) :
    ∃ i j, get_blank_position s = some (i, j) ∧ i < 3 ∧ j < 3 ∧ cellAt s i j = 0 ∧
      (∀ a b, a < 3 → b < 3 → cellAt s a b = 0 → a = i ∧ b = j) ∧
      get_neighbors s ≠ [] := by
  obtain ⟨x0, x1, x2, x3, x4, x5, x6, x7, x8, rfl, hperm⟩ := shape_of_perm s hs
  rcases zero_cases x0 x1 x2 x3 x4 x5 x6 x7 x8 hperm with hz|hz|hz|hz|hz|hz|hz|hz|hz
  · have hz' := hz.symm
    obtain ⟨n1, n2, n3, n4, n5, n6, n7, n8⟩ := nz0 x0 x1 x2 x3 x4 x5 x6 x7 x8 hperm hz'
    refine ⟨0, 0, blank0 x0 x1 x2 x3 x4 x5 x6 x7 x8 hz', by omega, by omega, hz', ?_, ?_⟩
    · intro a b ha hb hc
      interval_cases a <;> interval_cases b
      · exact ⟨rfl, rfl⟩
      · exact absurd hc n1
      · exact absurd hc n2
      · exact absurd hc n3
      · exact absurd hc n4
      · exact absurd hc n5
      · exact absurd hc n6
      · exact absurd hc n7
      · exact absurd hc n8
    · rw [nbrs0 x0 x1 x2 x3 x4 x5 x6 x7 x8 hz']
      exact List.cons_ne_nil _ _
  · have hz' := hz.symm
    obtain ⟨n0, n2, n3, n4, n5, n6, n7, n8⟩ := nz1 x0 x1 x2 x3 x4 x5 x6 x7 x8 hperm hz'
    refine ⟨0, 1, blank1 x0 x1 x2 x3 x4 x5 x6 x7 x8 n0 hz', by omega, by omega, hz', ?_, ?_⟩
    · intro a b ha hb hc
      interval_cases a <;> interval_cases b
      · exact absurd hc n0
      · exact ⟨rfl, rfl⟩
      · exact absurd hc n2
      · exact absurd hc n3
      · exact absurd hc n4
      · exact absurd hc n5
      · exact absurd hc n6
      · exact absurd hc n7
      · exact absurd hc n8
    · rw [nbrs1 x0 x1 x2 x3 x4 x5 x6 x7 x8 n0 hz']
      exact List.cons_ne_nil _ _
  · have hz' := hz.symm
    obtain ⟨n0, n1, n3, n4, n5, n6, n7, n8⟩ := nz2 x0 x1 x2 x3 x4 x5 x6 x7 x8 hperm hz'
    refine ⟨0, 2, blank2 x0 x1 x2 x3 x4 x5 x6 x7 x8 n0 n1 hz', by omega, by omega, hz', ?_, ?_⟩
    · intro a b ha hb hc
      interval_cases a <;> interval_cases b
      · exact absurd hc n0
      · exact absurd hc n1
      · exact ⟨rfl, rfl⟩
      · exact absurd hc n3
      · exact absurd hc n4
      · exact absurd hc n5
      · exact absurd hc n6
      · exact absurd hc n7
      · exact absurd hc n8
    · rw [nbrs2 x0 x1 x2 x3 x4 x5 x6 x7 x8 n0 n1 hz']
      exact List.cons_ne_nil _ _
  · have hz' := hz.symm
    obtain ⟨n0, n1, n2, n4, n5, n6, n7, n8⟩ := nz3 x0 x1 x2 x3 x4 x5 x6 x7 x8 hperm hz'
    refine ⟨1, 0, blank3 x0 x1 x2 x3 x4 x5 x6 x7 x8 n0 n1 n2 hz', by omega, by omega, hz', ?_, ?_⟩
    · intro a b ha hb hc
      interval_cases a <;> interval_cases b
      · exact absurd hc n0
      · exact absurd hc n1
      · exact absurd hc n2
      · exact ⟨rfl, rfl⟩
      · exact absurd hc n4
      · exact absurd hc n5
      · exact absurd hc n6
      · exact absurd hc n7
      · exact absurd hc n8
    · rw [nbrs3 x0 x1 x2 x3 x4 x5 x6 x7 x8 n0 n1 n2 hz']
      exact List.cons_ne_nil _ _
  · have hz' := hz.symm
    obtain ⟨n0, n1, n2, n3, n5, n6, n7, n8⟩ := nz4 x0 x1 x2 x3 x4 x5 x6 x7 x8 hperm hz'
    refine ⟨1, 1, blank4 x0 x1 x2 x3 x4 x5 x6 x7 x8 n0 n1 n2 n3 hz', by omega, by omega, hz', ?_, ?_⟩
    · intro a b ha hb hc
      interval_cases a <;> interval_cases b
      · exact absurd hc n0
      · exact absurd hc n1
      · exact absurd hc n2
      · exact absurd hc n3
      · exact ⟨rfl, rfl⟩
      · exact absurd hc n5
      · exact absurd hc n6
      · exact absurd hc n7
      · exact absurd hc n8
    · rw [nbrs4 x0 x1 x2 x3 x4 x5 x6 x7 x8 n0 n1 n2 n3 hz']
      exact List.cons_ne_nil _ _
  · have hz' := hz.symm
    obtain ⟨n0, n1, n2, n3, n4, n6, n7, n8⟩ := nz5 x0 x1 x2 x3 x4 x5 x6 x7 x8 hperm hz'
    refine ⟨1, 2, blank5 x0 x1 x2 x3 x4 x5 x6 x7 x8 n0 n1 n2 n3 n4 hz', by omega, by omega, hz', ?_, ?_⟩
    · intro a b ha hb hc
      interval_cases a <;> interval_cases b
      · exact absurd hc n0
      · exact absurd hc n1
      · exact absurd hc n2
      · exact absurd hc n3
      · exact absurd hc n4
      · exact ⟨rfl, rfl⟩
      · exact absurd hc n6
      · exact absurd hc n7
      · exact absurd hc n8
    · rw [nbrs5 x0 x1 x2 x3 x4 x5 x6 x7 x8 n0 n1 n2 n3 n4 hz']
      exact List.cons_ne_nil _ _
  · have hz' := hz.symm
    obtain ⟨n0, n1, n2, n3, n4, n5, n7, n8⟩ := nz6 x0 x1 x2 x3 x4 x5 x6 x7 x8 hperm hz'
    refine ⟨2, 0, blank6 x0 x1 x2 x3 x4 x5 x6 x7 x8 n0 n1 n2 n3 n4 n5 hz', by omega, by omega, hz', ?_, ?_⟩
    · intro a b ha hb hc
      interval_cases a <;> interval_cases b
      · exact absurd hc n0
      · exact absurd hc n1
      · exact absurd hc n2
      · exact absurd hc n3
      · exact absurd hc n4
      · exact absurd hc n5
      · exact ⟨rfl, rfl⟩
      · exact absurd hc n7
      · exact absurd hc n8
    · rw [nbrs6 x0 x1 x2 x3 x4 x5 x6 x7 x8 n0 n1 n2 n3 n4 n5 hz']
      exact List.cons_ne_nil _ _
  · have hz' := hz.symm
    obtain ⟨n0, n1, n2, n3, n4, n5, n6, n8⟩ := nz7 x0 x1 x2 x3 x4 x5 x6 x7 x8 hperm hz'
    refine ⟨2, 1, blank7 x0 x1 x2 x3 x4 x5 x6 x7 x8 n0 n1 n2 n3 n4 n5 n6 hz', by omega, by omega, hz', ?_, ?_⟩
    · intro a b ha hb hc
      interval_cases a <;> interval_cases b
      · exact absurd hc n0
      · exact absurd hc n1
      · exact absurd hc n2
      · exact absurd hc n3
      · exact absurd hc n4
      · exact absurd hc n5
      · exact absurd hc n6
      · exact ⟨rfl, rfl⟩
      · exact absurd hc n8
    · rw [nbrs7 x0 x1 x2 x3 x4 x5 x6 x7 x8 n0 n1 n2 n3 n4 n5 n6 hz']
      exact List.cons_ne_nil _ _
  · have hz' := hz.symm
    obtain ⟨n0, n1, n2, n3, n4, n5, n6, n7⟩ := nz8 x0 x1 x2 x3 x4 x5 x6 x7 x8 hperm hz'
    refine ⟨2, 2, blank8 x0 x1 x2 x3 x4 x5 x6 x7 x8 n0 n1 n2 n3 n4 n5 n6 n7 hz', by omega, by omega, hz', ?_, ?_⟩
    · intro a b ha hb hc
      interval_cases a <;> interval_cases b
      · exact absurd hc n0
      · exact absurd hc n1
      · exact absurd hc n2
      · exact absurd hc n3
      · exact absurd hc n4
      · exact absurd hc n5
      · exact absurd hc n6
      · exact absurd hc n7
      · exact ⟨rfl, rfl⟩
    · rw [nbrs8 x0 x1 x2 x3 x4 x5 x6 x7 x8 n0 n1 n2 n3 n4 n5 n6 n7 hz']
      exact List.cons_ne_nil _ _

/-- The move relation is symmetric: the swap that produced a neighbor can be
undone by the corresponding move from the neighbor. -/
theorem neighbors_symm (s t : Config) (hs : isPermutation s)
    (ht : t ∈ get_neighbors s) : s ∈ get_neighbors t := by
  obtain ⟨x0, x1, x2, x3, x4, x5, x6, x7, x8, rfl, hperm⟩ := shape_of_perm s hs
  rcases zero_cases x0 x1 x2 x3 x4 x5 x6 x7 x8 hperm with hz|hz|hz|hz|hz|hz|hz|hz|hz
  · have hz' := hz.symm
    obtain ⟨n1, n2, n3, n4, n5, n6, n7, n8⟩ := nz0 x0 x1 x2 x3 x4 x5 x6 x7 x8 hperm hz'
    rw [nbrs0 x0 x1 x2 x3 x4 x5 x6 x7 x8 hz'] at ht
    simp only [List.mem_cons, List.not_mem_nil, or_false] at ht
    rcases ht with rfl | rfl
    · rw [nbrs3 x3 x1 x2 x0 x4 x5 x6 x7 x8 n3 n1 n2 hz']
      exact List.Mem.head _
    · rw [nbrs1 x1 x0 x2 x3 x4 x5 x6 x7 x8 n1 hz']
      exact List.Mem.tail _ (List.Mem.head _)
  · have hz' := hz.symm
    obtain ⟨n0, n2, n3, n4, n5, n6, n7, n8⟩ := nz1 x0 x1 x2 x3 x4 x5 x6 x7 x8 hperm hz'
    rw [nbrs1 x0 x1 x2 x3 x4 x5 x6 x7 x8 n0 hz'] at ht
    simp only [List.mem_cons, List.not_mem_nil, or_false] at ht
    rcases ht with rfl | rfl | rfl
    · rw [nbrs4 x0 x4 x2 x3 x1 x5 x6 x7 x8 n0 n4 n2 n3 hz']
      exact List.Mem.head _
    · rw [nbrs0 x1 x0 x2 x3 x4 x5 x6 x7 x8 hz']
      exact List.Mem.tail _ (List.Mem.head _)
    · rw [nbrs2 x0 x2 x1 x3 x4 x5 x6 x7 x8 n0 n2 hz']
      exact List.Mem.tail _ (List.Mem.head _)
  · have hz' := hz.symm
    obtain ⟨n0, n1, n3, n4, n5, n6, n7, n8⟩ := nz2 x0 x1 x2 x3 x4 x5 x6 x7 x8 hperm hz'
    rw [nbrs2 x0 x1 x2 x3 x4 x5 x6 x7 x8 n0 n1 hz'] at ht
    simp only [List.mem_cons, List.not_mem_nil, or_false] at ht
    rcases ht with rfl | rfl
    · rw [nbrs5 x0 x1 x5 x3 x4 x2 x6 x7 x8 n0 n1 n5 n3 n4 hz']
      exact List.Mem.head _
    · rw [nbrs1 x0 x2 x1 x3 x4 x5 x6 x7 x8 n0 hz']
      exact List.Mem.tail _ (List.Mem.tail _ (List.Mem.head _))
  · have hz' := hz.symm
    obtain ⟨n0, n1, n2, n4, n5, n6, n7, n8⟩ := nz3 x0 x1 x2 x3 x4 x5 x6 x7 x8 hperm hz'
    rw [nbrs3 x0 x1 x2 x3 x4 x5 x6 x7 x8 n0 n1 n2 hz'] at ht
    simp only [List.mem_cons, List.not_mem_nil, or_false] at ht
    rcases ht with rfl | rfl | rfl
    · rw [nbrs0 x3 x1 x2 x0 x4 x5 x6 x7 x8 hz']
      exact List.Mem.head _
    · rw [nbrs6 x0 x1 x2 x6 x4 x5 x3 x7 x8 n0 n1 n2 n6 n4 n5 hz']
      exact List.Mem.head _
    · rw [nbrs4 x0 x1 x2 x4 x3 x5 x6 x7 x8 n0 n1 n2 n4 hz']
      exact List.Mem.tail _ (List.Mem.tail _ (List.Mem.head _))
  · have hz' := hz.symm
    obtain ⟨n0, n1, n2, n3, n5, n6, n7, n8⟩ := nz4 x0 x1 x2 x3 x4 x5 x6 x7 x8 hperm hz'
    rw [nbrs4 x0 x1 x2 x3 x4 x5 x6 x7 x8 n0 n1 n2 n3 hz'] at ht
    simp only [List.mem_cons, List.not_mem_nil, or_false] at ht
    rcases ht with rfl | rfl | rfl | rfl
    · rw [nbrs1 x0 x4 x2 x3 x1 x5 x6 x7 x8 n0 hz']
      exact List.Mem.head _
    · rw [nbrs7 x0 x1 x2 x3 x7 x5 x6 x4 x8 n0 n1 n2 n3 n7 n5 n6 hz']
      exact List.Mem.head _
    · rw [nbrs3 x0 x1 x2 x4 x3 x5 x6 x7 x8 n0 n1 n2 hz']
      exact List.Mem.tail _ (List.Mem.tail _ (List.Mem.head _))
    · rw [nbrs5 x0 x1 x2 x3 x5 x4 x6 x7 x8 n0 n1 n2 n3 n5 hz']
      exact List.Mem.tail _ (List.Mem.tail _ (List.Mem.head _))
  · have hz' := hz.symm
    obtain ⟨n0, n1, n2, n3, n4, n6, n7, n8⟩ := nz5 x0 x1 x2 x3 x4 x5 x6 x7 x8 hperm hz'
    rw [nbrs5 x0 x1 x2 x3 x4 x5 x6 x7 x8 n0 n1 n2 n3 n4 hz'] at ht
    simp only [List.mem_cons, List.not_mem_nil, or_false] at ht
    rcases ht with rfl | rfl | rfl
    · rw [nbrs2 x0 x1 x5 x3 x4 x2 x6 x7 x8 n0 n1 hz']
      exact List.Mem.head _
    · rw [nbrs8 x0 x1 x2 x3 x4 x8 x6 x7 x5 n0 n1 n2 n3 n4 n8 n6 n7 hz']
      exact List.Mem.head _
    · rw [nbrs4 x0 x1 x2 x3 x5 x4 x6 x7 x8 n0 n1 n2 n3 hz']
      exact List.Mem.tail _ (List.Mem.tail _ (List.Mem.tail _ (List.Mem.head _)))
  · have hz' := hz.symm
    obtain ⟨n0, n1, n2, n3, n4, n5, n7, n8⟩ := nz6 x0 x1 x2 x3 x4 x5 x6 x7 x8 hperm hz'
    rw [nbrs6 x0 x1 x2 x3 x4 x5 x6 x7 x8 n0 n1 n2 n3 n4 n5 hz'] at ht
    simp only [List.mem_cons, List.not_mem_nil, or_false] at ht
    rcases ht with rfl | rfl
    · rw [nbrs3 x0 x1 x2 x6 x4 x5 x3 x7 x8 n0 n1 n2 hz']
      exact List.Mem.tail _ (List.Mem.head _)
    · rw [nbrs7 x0 x1 x2 x3 x4 x5 x7 x6 x8 n0 n1 n2 n3 n4 n5 n7 hz']
      exact List.Mem.tail _ (List.Mem.head _)
  · have hz' := hz.symm
    obtain ⟨n0, n1, n2, n3, n4, n5, n6, n8⟩ := nz7 x0 x1 x2 x3 x4 x5 x6 x7 x8 hperm hz'
    rw [nbrs7 x0 x1 x2 x3 x4 x5 x6 x7 x8 n0 n1 n2 n3 n4 n5 n6 hz'] at ht
    simp only [List.mem_cons, List.not_mem_nil, or_false] at ht
    rcases ht with rfl | rfl | rfl
    · rw [nbrs4 x0 x1 x2 x3 x7 x5 x6 x4 x8 n0 n1 n2 n3 hz']
      exact List.Mem.tail _ (List.Mem.head _)
    · rw [nbrs6 x0 x1 x2 x3 x4 x5 x7 x6 x8 n0 n1 n2 n3 n4 n5 hz']
      exact List.Mem.tail _ (List.Mem.head _)
    · rw [nbrs8 x0 x1 x2 x3 x4 x5 x6 x8 x7 n0 n1 n2 n3 n4 n5 n6 n8 hz']
      exact List.Mem.tail _ (List.Mem.head _)
  · have hz' := hz.symm
    obtain ⟨n0, n1, n2, n3, n4, n5, n6, n7⟩ := nz8 x0 x1 x2 x3 x4 x5 x6 x7 x8 hperm hz'
    rw [nbrs8 x0 x1 x2 x3 x4 x5 x6 x7 x8 n0 n1 n2 n3 n4 n5 n6 n7 hz'] at ht
    simp only [List.mem_cons, List.not_mem_nil, or_false] at ht
    rcases ht with rfl | rfl
    · rw [nbrs5 x0 x1 x2 x3 x4 x8 x6 x7 x5 n0 n1 n2 n3 n4 hz']
      exact List.Mem.tail _ (List.Mem.head _)
    · rw [nbrs7 x0 x1 x2 x3 x4 x5 x6 x8 x7 n0 n1 n2 n3 n4 n5 n6 hz']
      exact List.Mem.tail _ (List.Mem.tail _ (List.Mem.head _))

/-- One blank move preserves the parity of the inversion count of the
non-blank tiles (horizontal moves keep the tile order, vertical moves rotate
a window of three tiles, an even permutation). -/
theorem neighbors_parity (s t : Config) (hs : isPermutation s)
    (ht : t ∈ get_neighbors s) :
    inversions (tiles t) % 2 = inversions (tiles s) % 2 := by
  obtain ⟨x0, x1, x2, x3, x4, x5, x6, x7, x8, rfl, hperm⟩ := shape_of_perm s hs
  have hnd : ([x0,x1,x2,x3,x4,x5,x6,x7,x8] : List Nat).Nodup :=
    hperm.nodup_iff.mpr (List.nodup_range 9)
  simp only [List.nodup_cons, List.mem_cons, List.not_mem_nil, List.nodup_nil,
    or_false, and_true, not_or, not_false_iff] at hnd
  rcases zero_cases x0 x1 x2 x3 x4 x5 x6 x7 x8 hperm with hz|hz|hz|hz|hz|hz|hz|hz|hz
  · have hz' := hz.symm
    obtain ⟨n1, n2, n3, n4, n5, n6, n7, n8⟩ := nz0 x0 x1 x2 x3 x4 x5 x6 x7 x8 hperm hz'
    rw [nbrs0 x0 x1 x2 x3 x4 x5 x6 x7 x8 hz'] at ht
    simp only [List.mem_cons, List.not_mem_nil, or_false] at ht
    rcases ht with rfl | rfl
    · simp [tiles, hz', n1, n2, n3, n4, n5, n6, n7, n8]
      exact (inv_window [] [x4,x5,x6,x7,x8] x1 x2 x3 hnd.2.1.1 hnd.2.1.2.1 hnd.2.2.1.1).symm
    · simp [tiles, hz', n1, n2, n3, n4, n5, n6, n7, n8]
  · have hz' := hz.symm
    obtain ⟨n0, n2, n3, n4, n5, n6, n7, n8⟩ := nz1 x0 x1 x2 x3 x4 x5 x6 x7 x8 hperm hz'
    rw [nbrs1 x0 x1 x2 x3 x4 x5 x6 x7 x8 n0 hz'] at ht
    simp only [List.mem_cons, List.not_mem_nil, or_false] at ht
    rcases ht with rfl | rfl | rfl
    · simp [tiles, hz', n0, n2, n3, n4, n5, n6, n7, n8]
      exact (inv_window [x0] [x5,x6,x7,x8] x2 x3 x4 hnd.2.2.1.1 hnd.2.2.1.2.1 hnd.2.2.2.1.1).symm
    · simp [tiles, hz', n0, n2, n3, n4, n5, n6, n7, n8]
    · simp [tiles, hz', n0, n2, n3, n4, n5, n6, n7, n8]
  · have hz' := hz.symm
    obtain ⟨n0, n1, n3, n4, n5, n6, n7, n8⟩ := nz2 x0 x1 x2 x3 x4 x5 x6 x7 x8 hperm hz'
    rw [nbrs2 x0 x1 x2 x3 x4 x5 x6 x7 x8 n0 n1 hz'] at ht
    simp only [List.mem_cons, List.not_mem_nil, or_false] at ht
    rcases ht with rfl | rfl
    · simp [tiles, hz', n0, n1, n3, n4, n5, n6, n7, n8]
      exact (inv_window [x0,x1] [x6,x7,x8] x3 x4 x5 hnd.2.2.2.1.1 hnd.2.2.2.1.2.1 hnd.2.2.2.2.1.1).symm
    · simp [tiles, hz', n0, n1, n3, n4, n5, n6, n7, n8]
  · have hz' := hz.symm
    obtain ⟨n0, n1, n2, n4, n5, n6, n7, n8⟩ := nz3 x0 x1 x2 x3 x4 x5 x6 x7 x8 hperm hz'
    rw [nbrs3 x0 x1 x2 x3 x4 x5 x6 x7 x8 n0 n1 n2 hz'] at ht
    simp only [List.mem_cons, List.not_mem_nil, or_false] at ht
    rcases ht with rfl | rfl | rfl
    · simp [tiles, hz', n0, n1, n2, n4, n5, n6, n7, n8]
      exact inv_window [] [x4,x5,x6,x7,x8] x1 x2 x0 hnd.2.1.1 (Ne.symm hnd.1.1) (Ne.symm hnd.1.2.1)
    · simp [tiles, hz', n0, n1, n2, n4, n5, n6, n7, n8]
      exact (inv_window [x0,x1,x2] [x7,x8] x4 x5 x6 hnd.2.2.2.2.1.1 hnd.2.2.2.2.1.2.1 hnd.2.2.2.2.2.1.1).symm
    · simp [tiles, hz', n0, n1, n2, n4, n5, n6, n7, n8]
  · have hz' := hz.symm
    obtain ⟨n0, n1, n2, n3, n5, n6, n7, n8⟩ := nz4 x0 x1 x2 x3 x4 x5 x6 x7 x8 hperm hz'
    rw [nbrs4 x0 x1 x2 x3 x4 x5 x6 x7 x8 n0 n1 n2 n3 hz'] at ht
    simp only [List.mem_cons, List.not_mem_nil, or_false] at ht
    rcases ht with rfl | rfl | rfl | rfl
    · simp [tiles, hz', n0, n1, n2, n3, n5, n6, n7, n8]
      exact inv_window [x0] [x5,x6,x7,x8] x2 x3 x1 hnd.2.2.1.1 (Ne.symm hnd.2.1.1) (Ne.symm hnd.2.1.2.1)
    · simp [tiles, hz', n0, n1, n2, n3, n5, n6, n7, n8]
      exact (inv_window [x0,x1,x2,x3] [x8] x5 x6 x7 hnd.2.2.2.2.2.1.1 hnd.2.2.2.2.2.1.2.1 hnd.2.2.2.2.2.2.1.1).symm
    · simp [tiles, hz', n0, n1, n2, n3, n5, n6, n7, n8]
    · simp [tiles, hz', n0, n1, n2, n3, n5, n6, n7, n8]
  · have hz' := hz.symm
    obtain ⟨n0, n1, n2, n3, n4, n6, n7, n8⟩ := nz5 x0 x1 x2 x3 x4 x5 x6 x7 x8 hperm hz'
    rw [nbrs5 x0 x1 x2 x3 x4 x5 x6 x7 x8 n0 n1 n2 n3 n4 hz'] at ht
    simp only [List.mem_cons, List.not_mem_nil, or_false] at ht
    rcases ht with rfl | rfl | rfl
    · simp [tiles, hz', n0, n1, n2, n3, n4, n6, n7, n8]
      exact inv_window [x0,x1] [x6,x7,x8] x3 x4 x2 hnd.2.2.2.1.1 (Ne.symm hnd.2.2.1.1) (Ne.symm hnd.2.2.1.2.1)
    · simp [tiles, hz', n0, n1, n2, n3, n4, n6, n7, n8]
      exact (inv_window [x0,x1,x2,x3,x4] [] x6 x7 x8 hnd.2.2.2.2.2.2.1.1 hnd.2.2.2.2.2.2.1.2 hnd.2.2.2.2.2.2.2).symm
    · simp [tiles, hz', n0, n1, n2, n3, n4, n6, n7, n8]
  · have hz' := hz.symm
    obtain ⟨n0, n1, n2, n3, n4, n5, n7, n8⟩ := nz6 x0 x1 x2 x3 x4 x5 x6 x7 x8 hperm hz'
    rw [nbrs6 x0 x1 x2 x3 x4 x5 x6 x7 x8 n0 n1 n2 n3 n4 n5 hz'] at ht
    simp only [List.mem_cons, List.not_mem_nil, or_false] at ht
    rcases ht with rfl | rfl
    · simp [tiles, hz', n0, n1, n2, n3, n4, n5, n7, n8]
      exact inv_window [x0,x1,x2] [x7,x8] x4 x5 x3 hnd.2.2.2.2.1.1 (Ne.symm hnd.2.2.2.1.1) (Ne.symm hnd.2.2.2.1.2.1)
    · simp [tiles, hz', n0, n1, n2, n3, n4, n5, n7, n8]
  · have hz' := hz.symm
    obtain ⟨n0, n1, n2, n3, n4, n5, n6, n8⟩ := nz7 x0 x1 x2 x3 x4 x5 x6 x7 x8 hperm hz'
    rw [nbrs7 x0 x1 x2 x3 x4 x5 x6 x7 x8 n0 n1 n2 n3 n4 n5 n6 hz'] at ht
    simp only [List.mem_cons, List.not_mem_nil, or_false] at ht
    rcases ht with rfl | rfl | rfl
    · simp [tiles, hz', n0, n1, n2, n3, n4, n5, n6, n8]
      exact inv_window [x0,x1,x2,x3] [x8] x5 x6 x4 hnd.2.2.2.2.2.1.1 (Ne.symm hnd.2.2.2.2.1.1) (Ne.symm hnd.2.2.2.2.1.2.1)
    · simp [tiles, hz', n0, n1, n2, n3, n4, n5, n6, n8]
    · simp [tiles, hz', n0, n1, n2, n3, n4, n5, n6, n8]
  · have hz' := hz.symm
    obtain ⟨n0, n1, n2, n3, n4, n5, n6, n7⟩ := nz8 x0 x1 x2 x3 x4 x5 x6 x7 x8 hperm hz'
    rw [nbrs8 x0 x1 x2 x3 x4 x5 x6 x7 x8 n0 n1 n2 n3 n4 n5 n6 n7 hz'] at ht
    simp only [List.mem_cons, List.not_mem_nil, or_false] at ht
    rcases ht with rfl | rfl
    · simp [tiles, hz', n0, n1, n2, n3, n4, n5, n6, n7]
      exact inv_window [x0,x1,x2,x3,x4] [] x6 x7 x5 hnd.2.2.2.2.2.2.1.1 (Ne.symm hnd.2.2.2.2.2.1.1) (Ne.symm hnd.2.2.2.2.2.1.2.1)
    · simp [tiles, hz', n0, n1, n2, n3, n4, n5, n6, n7]

/-- Every `get_neighbors`-successor of a permutation grid is a permutation grid. -/
theorem neighbors_isPerm (s t : Config) (hs : isPermutation s)
    (ht : t ∈ get_neighbors s) : isPermutation t := by
  obtain ⟨i, j, _, _, _, _, hall⟩ := neighbors_complete s hs
  exact (hall t ht).2

/-- Every `get_neighbors`-successor is one legal adjacent blank swap away. -/
theorem neighbors_adjacent (s t : Config) (hs : isPermutation s)
    (ht : t ∈ get_neighbors s) : adjacentSwap s t := by
  obtain ⟨i, j, _, _, _, _, hall⟩ := neighbors_complete s hs
  exact (hall t ht).1

theorem goal_isPermutation : isPermutation goal_state := by decide

theorem pathEnd_cons (s t : Config) (p : List Config) :
    pathEnd s (t :: p) = pathEnd t p := by
  cases p <;> rfl

theorem pathEnd_concat (s u : Config) (p : List Config) :
    pathEnd s (p ++ [u]) = u := by
  induction p generalizing s with
  | nil => rfl
  | cons a p ih => rw [List.cons_append, pathEnd_cons, ih]

theorem validFrom_append (s : Config) (p q : List Config) :
    validFrom s (p ++ q) ↔ validFrom s p ∧ validFrom (pathEnd s p) q := by
  induction p generalizing s with
  | nil => simp [validFrom, pathEnd]
  | cons a p ih =>
      rw [List.cons_append, pathEnd_cons]
      constructor
      · rintro ⟨h1, h2⟩
        obtain ⟨h3, h4⟩ := (ih a).1 h2
        exact ⟨⟨h1, h3⟩, h4⟩
      · rintro ⟨⟨h1, h3⟩, h4⟩
        exact ⟨h1, (ih a).2 ⟨h3, h4⟩⟩

theorem reaches_refl (s : Config) : reaches s s := ⟨[], trivial, rfl⟩

theorem reaches_step (s t u : Config) (h : reaches s t)
    (hu : u ∈ get_neighbors t) : reaches s u := by
  obtain ⟨p, hv, he⟩ := h
  refine ⟨p ++ [u], ?_, pathEnd_concat s u p⟩
  exact (validFrom_append s p [u]).2 ⟨hv, by rw [he]; exact ⟨hu, trivial⟩⟩

theorem reaches_trans (s t u : Config) (h1 : reaches s t) (h2 : reaches t u) :
    reaches s u := by
  obtain ⟨p, hp, hep⟩ := h1
  obtain ⟨q, hq, heq⟩ := h2
  refine ⟨p ++ q, (validFrom_append s p q).2 ⟨hp, ?_⟩, ?_⟩
  · rw [hep]; exact hq
  · obtain rfl | ⟨q', u', rfl⟩ := q.eq_nil_or_concat
    · simpa [pathEnd] using hep.trans heq
    · rw [List.concat_eq_append] at heq ⊢
      rw [← List.append_assoc, pathEnd_concat]
      rw [pathEnd_concat] at heq
      exact heq

theorem reaches_isPerm (s t : Config) (hs : isPermutation s) (h : reaches s t) :
    isPermutation t := by
  obtain ⟨p, hv, he⟩ := h
  induction p generalizing s with
  | nil => rw [← he]; exact hs
  | cons a p ih =>
      rw [pathEnd_cons] at he
      exact ih a (neighbors_isPerm s a hs hv.1) hv.2 he

theorem reaches_symm (s t : Config) (hs : isPermutation s) (h : reaches s t) :
    reaches t s := by
  obtain ⟨p, hv, he⟩ := h
  induction p generalizing s with
  | nil => rw [← he]; exact reaches_refl s
  | cons a p ih =>
      have ha : isPermutation a := neighbors_isPerm s a hs hv.1
      rw [pathEnd_cons] at he
      exact reaches_step t a s (ih a ha hv.2 he) (neighbors_symm s a hs hv.1)

theorem reaches_parity (s t : Config) (hs : isPermutation s) (h : reaches s t) :
    inversions (tiles t) % 2 = inversions (tiles s) % 2 := by
  obtain ⟨p, hv, he⟩ := h
  induction p generalizing s with
  | nil => rw [← he]; rfl
  | cons a p ih =>
      have ha : isPermutation a := neighbors_isPerm s a hs hv.1
      rw [pathEnd_cons] at he
      exact (ih a ha hv.2 he).trans (neighbors_parity s a hs hv.1)

/-- The instance obtained from the goal by swapping the adjacent tiles 1 and 2:
the canonical member of the unsolvable parity class. -/
def badStart : Config := [[2,1,3],[4,5,6],[7,8,0]]

theorem badStart_unsolvable : ¬ reaches badStart goal_state := by
  intro h
  have hp : isPermutation badStart := by decide
  have := reaches_parity badStart goal_state hp h
  revert this
  decide

/-- The contribution of one cell to `manhattan_distance`. -/
def cellTerm (i j v : Nat) : Int :=
  if v ≠ 0 then
    |(i : Int) - (((v - 1) / 3 : Nat) : Int)| + |(j : Int) - (((v - 1) % 3 : Nat) : Int)|
  else 0

theorem step_term (d : Int) (i j v : Nat) :
    (if v ≠ 0 then
        d + |(i : Int) - (((v - 1) / 3 : Nat) : Int)| + |(j : Int) - (((v - 1) % 3 : Nat) : Int)|
      else d) = d + cellTerm i j v := by
  unfold cellTerm
  by_cases h : v = 0 <;> simp [h] <;> ring

theorem manhattan_explicit (x0 x1 x2 x3 x4 x5 x6 x7 x8 : Nat) :
    manhattan_distance [[x0,x1,x2],[x3,x4,x5],[x6,x7,x8]] =
      cellTerm 0 0 x0 + cellTerm 0 1 x1 + cellTerm 0 2 x2 +
      cellTerm 1 0 x3 + cellTerm 1 1 x4 + cellTerm 1 2 x5 +
      cellTerm 2 0 x6 + cellTerm 2 1 x7 + cellTerm 2 2 x8 := by
  have c00 : cellAt [[x0,x1,x2],[x3,x4,x5],[x6,x7,x8]] 0 0 = x0 := rfl
  have c01 : cellAt [[x0,x1,x2],[x3,x4,x5],[x6,x7,x8]] 0 1 = x1 := rfl
  have c02 : cellAt [[x0,x1,x2],[x3,x4,x5],[x6,x7,x8]] 0 2 = x2 := rfl
  have c10 : cellAt [[x0,x1,x2],[x3,x4,x5],[x6,x7,x8]] 1 0 = x3 := rfl
  have c11 : cellAt [[x0,x1,x2],[x3,x4,x5],[x6,x7,x8]] 1 1 = x4 := rfl
  have c12 : cellAt [[x0,x1,x2],[x3,x4,x5],[x6,x7,x8]] 1 2 = x5 := rfl
  have c20 : cellAt [[x0,x1,x2],[x3,x4,x5],[x6,x7,x8]] 2 0 = x6 := rfl
  have c21 : cellAt [[x0,x1,x2],[x3,x4,x5],[x6,x7,x8]] 2 1 = x7 := rfl
  have c22 : cellAt [[x0,x1,x2],[x3,x4,x5],[x6,x7,x8]] 2 2 = x8 := rfl
  simp only [manhattan_distance, List.range, List.range.loop, List.foldl, c00, c01, c02, c10, c11, c12, c20, c21, c22]
  simp only [step_term]
  ring

theorem cellTerm_nonneg (i j v : Nat) : 0 ≤ cellTerm i j v := by
  unfold cellTerm
  split
  · positivity
  · rfl

theorem cellTerm_zero (i j v : Nat) (hi : i < 3) (hj : j < 3) (hv : v < 9)
    (h : cellTerm i j v = 0) : v = 0 ∨ v = 3 * i + j + 1 := by
  interval_cases i <;> interval_cases j <;> interval_cases v <;> revert h <;> decide

/-- `manhattan_distance` is non-negative on any well-formed grid. -/
theorem manhattan_nonneg (s : Config) (hs : wellFormed s) :
    0 ≤ manhattan_distance s := by
  obtain ⟨x0, x1, x2, x3, x4, x5, x6, x7, x8, rfl⟩ := shape_of_wf s hs
  rw [manhattan_explicit]
  have t0 := cellTerm_nonneg 0 0 x0
  have t1 := cellTerm_nonneg 0 1 x1
  have t2 := cellTerm_nonneg 0 2 x2
  have t3 := cellTerm_nonneg 1 0 x3
  have t4 := cellTerm_nonneg 1 1 x4
  have t5 := cellTerm_nonneg 1 2 x5
  have t6 := cellTerm_nonneg 2 0 x6
  have t7 := cellTerm_nonneg 2 1 x7
  have t8 := cellTerm_nonneg 2 2 x8
  omega

/-- On permutation grids the Manhattan heuristic vanishes exactly at the goal. -/
theorem manhattan_zero_iff (s : Config) (hs : isPermutation s) :
    manhattan_distance s = 0 ↔ s = goal_state := by
  constructor
  · intro h
    obtain ⟨x0, x1, x2, x3, x4, x5, x6, x7, x8, rfl, hperm⟩ := shape_of_perm s hs
    have hnd : ([x0,x1,x2,x3,x4,x5,x6,x7,x8] : List Nat).Nodup :=
      hperm.nodup_iff.mpr (List.nodup_range 9)
    simp only [List.nodup_cons, List.mem_cons, List.not_mem_nil, List.nodup_nil,
      or_false, and_true, not_or, not_false_iff] at hnd
    rw [manhattan_explicit] at h
    have b0 : x0 < 9 := List.mem_range.1 (hperm.subset (by simp))
    have b1 : x1 < 9 := List.mem_range.1 (hperm.subset (by simp))
    have b2 : x2 < 9 := List.mem_range.1 (hperm.subset (by simp))
    have b3 : x3 < 9 := List.mem_range.1 (hperm.subset (by simp))
    have b4 : x4 < 9 := List.mem_range.1 (hperm.subset (by simp))
    have b5 : x5 < 9 := List.mem_range.1 (hperm.subset (by simp))
    have b6 : x6 < 9 := List.mem_range.1 (hperm.subset (by simp))
    have b7 : x7 < 9 := List.mem_range.1 (hperm.subset (by simp))
    have b8 : x8 < 9 := List.mem_range.1 (hperm.subset (by simp))
    have nn0 := cellTerm_nonneg 0 0 x0
    have nn1 := cellTerm_nonneg 0 1 x1
    have nn2 := cellTerm_nonneg 0 2 x2
    have nn3 := cellTerm_nonneg 1 0 x3
    have nn4 := cellTerm_nonneg 1 1 x4
    have nn5 := cellTerm_nonneg 1 2 x5
    have nn6 := cellTerm_nonneg 2 0 x6
    have nn7 := cellTerm_nonneg 2 1 x7
    have nn8 := cellTerm_nonneg 2 2 x8
    have d0 := cellTerm_zero 0 0 x0 (by omega) (by omega) b0 (by omega)
    have d1 := cellTerm_zero 0 1 x1 (by omega) (by omega) b1 (by omega)
    have d2 := cellTerm_zero 0 2 x2 (by omega) (by omega) b2 (by omega)
    have d3 := cellTerm_zero 1 0 x3 (by omega) (by omega) b3 (by omega)
    have d4 := cellTerm_zero 1 1 x4 (by omega) (by omega) b4 (by omega)
    have d5 := cellTerm_zero 1 2 x5 (by omega) (by omega) b5 (by omega)
    have d6 := cellTerm_zero 2 0 x6 (by omega) (by omega) b6 (by omega)
    have d7 := cellTerm_zero 2 1 x7 (by omega) (by omega) b7 (by omega)
    have d8 := cellTerm_zero 2 2 x8 (by omega) (by omega) b8 (by omega)
    have e8 : x8 = 0 := by omega
    have e0 : x0 = 1 := by
      rcases d0 with h' | h'
      · exact absurd (by omega : x0 = x8) hnd.1.2.2.2.2.2.2.2
      · omega
    have e1 : x1 = 2 := by
      rcases d1 with h' | h'
      · exact absurd (by omega : x1 = x8) hnd.2.1.2.2.2.2.2.2
      · omega
    have e2 : x2 = 3 := by
      rcases d2 with h' | h'
      · exact absurd (by omega : x2 = x8) hnd.2.2.1.2.2.2.2.2
      · omega
    have e3 : x3 = 4 := by
      rcases d3 with h' | h'
      · exact absurd (by omega : x3 = x8) hnd.2.2.2.1.2.2.2.2
      · omega
    have e4 : x4 = 5 := by
      rcases d4 with h' | h'
      · exact absurd (by omega : x4 = x8) hnd.2.2.2.2.1.2.2.2
      · omega
    have e5 : x5 = 6 := by
      rcases d5 with h' | h'
      · exact absurd (by omega : x5 = x8) hnd.2.2.2.2.2.1.2.2
      · omega
    have e6 : x6 = 7 := by
      rcases d6 with h' | h'
      · exact absurd (by omega : x6 = x8) hnd.2.2.2.2.2.2.1.2
      · omega
    have e7 : x7 = 8 := by
      rcases d7 with h' | h'
      · exact absurd (by omega : x7 = x8) hnd.2.2.2.2.2.2.2
      · omega
    subst e0; subst e1; subst e2; subst e3; subst e4; subst e5; subst e6; subst e7; subst e8
    rfl
  · rintro rfl
    decide

/-- All cells of the grid carry values `0..8` (single decimal digits). -/
def cellsInRange (s : Config) : Prop := ∀ r ∈ s, ∀ v ∈ r, v < 9

instance decCellsInRange (s : Config) : Decidable (cellsInRange s) :=
  inferInstanceAs (Decidable (∀ r ∈ s, ∀ v ∈ r, v < 9))

/-- Digits have one-character decimal representations. -/
theorem repr_data_len (v : Nat) (hv : v < 9) : (Nat.repr v).data.length = 1 := by
  interval_cases v <;> decide

/-- Decimal representation is injective on digits. -/
theorem repr_data_inj (v w : Nat) (hv : v < 9) (hw : w < 9)
    (h : (Nat.repr v).data = (Nat.repr w).data) : v = w := by
  interval_cases v <;> interval_cases w <;> revert h <;> decide

/-- `state_to_string` separates any two 3×3 grids of digit cells. -/
theorem state_to_string_inj (s t : Config)
    (hs : wellFormed s) (hcs : cellsInRange s)
    (ht : wellFormed t) (hct : cellsInRange t) :
    state_to_string s = state_to_string t ↔ s = t := by
  constructor
  · intro hstr
    obtain ⟨x0, x1, x2, x3, x4, x5, x6, x7, x8, rfl⟩ := shape_of_wf s hs
    obtain ⟨y0, y1, y2, y3, y4, y5, y6, y7, y8, rfl⟩ := shape_of_wf t ht
    have b0 : x0 < 9 := hcs [x0,x1,x2] (by simp) x0 (by simp)
    have b1 : x1 < 9 := hcs [x0,x1,x2] (by simp) x1 (by simp)
    have b2 : x2 < 9 := hcs [x0,x1,x2] (by simp) x2 (by simp)
    have b3 : x3 < 9 := hcs [x3,x4,x5] (by simp) x3 (by simp)
    have b4 : x4 < 9 := hcs [x3,x4,x5] (by simp) x4 (by simp)
    have b5 : x5 < 9 := hcs [x3,x4,x5] (by simp) x5 (by simp)
    have b6 : x6 < 9 := hcs [x6,x7,x8] (by simp) x6 (by simp)
    have b7 : x7 < 9 := hcs [x6,x7,x8] (by simp) x7 (by simp)
    have b8 : x8 < 9 := hcs [x6,x7,x8] (by simp) x8 (by simp)
    have c0 : y0 < 9 := hct [y0,y1,y2] (by simp) y0 (by simp)
    have c1 : y1 < 9 := hct [y0,y1,y2] (by simp) y1 (by simp)
    have c2 : y2 < 9 := hct [y0,y1,y2] (by simp) y2 (by simp)
    have c3 : y3 < 9 := hct [y3,y4,y5] (by simp) y3 (by simp)
    have c4 : y4 < 9 := hct [y3,y4,y5] (by simp) y4 (by simp)
    have c5 : y5 < 9 := hct [y3,y4,y5] (by simp) y5 (by simp)
    have c6 : y6 < 9 := hct [y6,y7,y8] (by simp) y6 (by simp)
    have c7 : y7 < 9 := hct [y6,y7,y8] (by simp) y7 (by simp)
    have c8 : y8 < 9 := hct [y6,y7,y8] (by simp) y8 (by simp)
    have h : (state_to_string [[x0,x1,x2],[x3,x4,x5],[x6,x7,x8]]).data
        = (state_to_string [[y0,y1,y2],[y3,y4,y5],[y6,y7,y8]]).data := by rw [hstr]
    simp only [state_to_string, String.data_join, List.map_cons, List.map_nil,
      List.flatten_cons, List.flatten_nil, List.append_nil, List.append_assoc] at h
    obtain ⟨h0, h⟩ := List.append_inj h (by rw [repr_data_len x0 b0, repr_data_len y0 c0])
    have e0 : x0 = y0 := repr_data_inj x0 y0 b0 c0 h0
    obtain ⟨h1, h⟩ := List.append_inj h (by rw [repr_data_len x1 b1, repr_data_len y1 c1])
    have e1 : x1 = y1 := repr_data_inj x1 y1 b1 c1 h1
    obtain ⟨h2, h⟩ := List.append_inj h (by rw [repr_data_len x2 b2, repr_data_len y2 c2])
    have e2 : x2 = y2 := repr_data_inj x2 y2 b2 c2 h2
    obtain ⟨h3, h⟩ := List.append_inj h (by rw [repr_data_len x3 b3, repr_data_len y3 c3])
    have e3 : x3 = y3 := repr_data_inj x3 y3 b3 c3 h3
    obtain ⟨h4, h⟩ := List.append_inj h (by rw [repr_data_len x4 b4, repr_data_len y4 c4])
    have e4 : x4 = y4 := repr_data_inj x4 y4 b4 c4 h4
    obtain ⟨h5, h⟩ := List.append_inj h (by rw [repr_data_len x5 b5, repr_data_len y5 c5])
    have e5 : x5 = y5 := repr_data_inj x5 y5 b5 c5 h5
    obtain ⟨h6, h⟩ := List.append_inj h (by rw [repr_data_len x6 b6, repr_data_len y6 c6])
    have e6 : x6 = y6 := repr_data_inj x6 y6 b6 c6 h6
    obtain ⟨h7, h⟩ := List.append_inj h (by rw [repr_data_len x7 b7, repr_data_len y7 c7])
    have e7 : x7 = y7 := repr_data_inj x7 y7 b7 c7 h7
    have e8 : x8 = y8 := repr_data_inj x8 y8 b8 c8 h
    subst e0; subst e1; subst e2; subst e3; subst e4; subst e5; subst e6; subst e7; subst e8
    rfl
  · rintro rfl
    rfl

/-- The body of the BFS neighbor loop: for each neighbor in order, skip it when
its key is already visited, otherwise mark it visited and enqueue it with the
extended path (exactly the `for neighbor in ...` loop of `solve_bfs`). -/
def bfs_fold (path : List Config) (nbs : List Config)
    (q : List (Config × List Config)) (v : List String) :
    List (Config × List Config) × List String :=
  nbs.foldl
    (fun acc nb =>
      if acc.2.contains (state_to_string nb) then acc
      else (acc.1 ++ [(nb, path ++ [nb])], acc.2 ++ [state_to_string nb]))
    (q, v)

/-- The `while queue:` loop of `solve_bfs`, with an explicit fuel counter.
`none` = fuel exhausted (proved unreachable), `some none` = the source's
`return None` (no solution), `some (some p)` = `return path`. -/
def bfs_loop : Nat → List (Config × List Config) → List String → Option (Option (List Config))
  | 0, _, _ => none
  | fuel + 1, queue, visited =>
      match queue with
      | [] => some none
      | (state, path) :: rest =>
          if is_goal state then some (some path)
          else
            let qv := bfs_fold path (get_neighbors state) rest visited
            bfs_loop fuel qv.1 qv.2

/-- Enough fuel to outlast the worst case: the loop measure
`2·(9! − |visited|) + |queue|` starts below this and strictly decreases. -/
def bfsFuel : Nat := 2 * Nat.factorial 9 + 2

/-- `solve_bfs`: queue seeded with `(initial, [])`, visited set seeded with
the initial key. -/
def solve_bfs (initial : Config) : Option (Option (List Config)) :=
  bfs_loop bfsFuel [(initial, [])] [state_to_string initial]

theorem is_goal_iff (c : Config) : is_goal c = true ↔ c = goal_state := by
  simp [is_goal]

/-- Complete characterisation of one round of neighbor expansion. -/
theorem bfs_fold_spec (path : List Config) (nbs : List Config) :
    ∀ q v, ∃ added,
      (bfs_fold path nbs q v).1 = q ++ added ∧
      (bfs_fold path nbs q v).2 = v ++ added.map (fun e => state_to_string e.1) ∧
      (∀ e ∈ added, ∃ nb, nb ∈ nbs ∧ e = (nb, path ++ [nb]) ∧
        state_to_string nb ∉ v) ∧
      (∀ nb ∈ nbs, state_to_string nb ∈ (bfs_fold path nbs q v).2) ∧
      (v.Nodup → (bfs_fold path nbs q v).2.Nodup) := by
  induction nbs with
  | nil =>
      intro q v
      exact ⟨[], by simp [bfs_fold], by simp [bfs_fold], by simp, by simp, fun h => by
        simpa [bfs_fold] using h⟩
  | cons nb nbs ih =>
      intro q v
      by_cases hmem : state_to_string nb ∈ v
      · have hstep : bfs_fold path (nb :: nbs) q v = bfs_fold path nbs q v := by
          simp [bfs_fold, List.foldl_cons, hmem]
        obtain ⟨added, h1, h2, h3, h4, h5⟩ := ih q v
        refine ⟨added, hstep ▸ h1, hstep ▸ h2, ?_, ?_, hstep ▸ h5⟩
        · intro e he
          obtain ⟨nb', hn1, hn2, hn3⟩ := h3 e he
          exact ⟨nb', List.mem_cons_of_mem _ hn1, hn2, hn3⟩
        · intro nb' hnb'
          rcases List.mem_cons.1 hnb' with rfl | hnb'
          · rw [hstep, h2]
            exact List.mem_append_left _ hmem
          · exact hstep ▸ h4 nb' hnb'
      · have hstep : bfs_fold path (nb :: nbs) q v
            = bfs_fold path nbs (q ++ [(nb, path ++ [nb])]) (v ++ [state_to_string nb]) := by
          simp [bfs_fold, List.foldl_cons, hmem]
        obtain ⟨added, h1, h2, h3, h4, h5⟩ :=
          ih (q ++ [(nb, path ++ [nb])]) (v ++ [state_to_string nb])
        refine ⟨(nb, path ++ [nb]) :: added, ?_, ?_, ?_, ?_, ?_⟩
        · rw [hstep, h1, List.append_assoc]
          rfl
        · rw [hstep, h2, List.append_assoc]
          rfl
        · intro e he
          rcases List.mem_cons.1 he with rfl | he
          · exact ⟨nb, List.mem_cons_self _ _, rfl, hmem⟩
          · obtain ⟨nb', hn1, hn2, hn3⟩ := h3 e he
            refine ⟨nb', List.mem_cons_of_mem _ hn1, hn2, fun hin => hn3 ?_⟩
            exact List.mem_append_left _ hin
        · intro nb' hnb'
          rcases List.mem_cons.1 hnb' with rfl | hnb'
          · rw [hstep, h2]
            exact List.mem_append_left _ (List.mem_append_right _ (List.mem_singleton.2 rfl))
          · exact hstep ▸ h4 nb' hnb'
        · intro hnd
          rw [hstep]
          exact h5 (by simp [List.nodup_append, hnd, hmem])

/-- Permutation grids have digit cells. -/
theorem perm_cellsInRange (s : Config) (hs : isPermutation s) : cellsInRange s := by
  intro r hr val hv
  have hm : val ∈ s.flatten := List.mem_flatten.2 ⟨r, hr, hv⟩
  exact List.mem_range.1 (hs.2.subset hm)

/-- `state_to_string` is injective on permutation grids. -/
theorem key_inj (a b : Config) (ha : isPermutation a) (hb : isPermutation b)
    (h : state_to_string a = state_to_string b) : a = b :=
  (state_to_string_inj a b ha.1 (perm_cellsInRange a ha)
    hb.1 (perm_cellsInRange b hb)).1 h

/-- On well-formed grids the key is the join of the flattened digit reprs. -/
theorem sts_flatten (s : Config) (hs : wellFormed s) :
    state_to_string s = String.join (s.flatten.map (fun n => Nat.repr n)) := by
  obtain ⟨x0, x1, x2, x3, x4, x5, x6, x7, x8, rfl⟩ := shape_of_wf s hs
  apply String.ext
  simp [state_to_string, String.data_join]

/-- The keys of all permutation grids. -/
def allPermKeys : List String :=
  ((List.range 9).permutations).map (fun l => String.join (l.map (fun n => Nat.repr n)))

theorem key_mem_allPermKeys (c : Config) (hc : isPermutation c) :
    state_to_string c ∈ allPermKeys := by
  have h1 : c.flatten ∈ (List.range 9).permutations := List.mem_permutations.2 hc.2
  rw [sts_flatten c hc.1]
  exact List.mem_map.2 ⟨c.flatten, h1, rfl⟩

/-- A duplicate-free list of permutation keys has at most 9! elements. -/
theorem visited_bound (v : List String) (hnd : v.Nodup)
    (hv : ∀ k ∈ v, ∃ c, isPermutation c ∧ k = state_to_string c) :
    v.length ≤ Nat.factorial 9 := by
  have hsub : v ⊆ allPermKeys := by
    intro k hk
    obtain ⟨c, hc1, hc2⟩ := hv k hk
    exact hc2 ▸ key_mem_allPermKeys c hc1
  calc v.length = v.toFinset.card := (List.toFinset_card_of_nodup hnd).symm
    _ ≤ allPermKeys.toFinset.card :=
        Finset.card_le_card (fun x hx => List.mem_toFinset.2 (hsub (List.mem_toFinset.1 hx)))
    _ ≤ allPermKeys.length := allPermKeys.toFinset_card_le
    _ = Nat.factorial 9 := by
        simp [allPermKeys, List.length_permutations]

theorem reachN_zero (s t : Config) (h : reachN 0 s t) : s = t := by
  obtain ⟨p, _, hlen, he⟩ := h
  have hp := List.length_eq_zero.1 hlen
  subst hp
  exact he

theorem reachN_succ (n : Nat) (s c' : Config) (h : reachN (n + 1) s c') :
    ∃ y, reachN n s y ∧ c' ∈ get_neighbors y := by
  obtain ⟨p, hv, hlen, he⟩ := h
  obtain rfl | ⟨q, u, rfl⟩ := p.eq_nil_or_concat
  · simp at hlen
  · rw [List.concat_eq_append] at hv hlen he
    have hlen' : q.length = n := by simpa using hlen
    obtain ⟨hq, hu⟩ := (validFrom_append s q [u]).1 hv
    have he' : u = c' := by rw [pathEnd_concat] at he; exact he
    exact ⟨pathEnd s q, ⟨q, hq, hlen', rfl⟩, he' ▸ hu.1⟩

theorem reachN_isPerm (n : Nat) (s t : Config) (hs : isPermutation s)
    (h : reachN n s t) : isPermutation t := by
  obtain ⟨p, hv, _, he⟩ := h
  exact reaches_isPerm s t hs ⟨p, hv, he⟩

/-- The loop invariant of `solve_bfs`.  `v` is the visited set, `q` the queue. -/
structure BFSInv (s₀ : Config) (q : List (Config × List Config)) (v : List String) : Prop where
  vnodup : v.Nodup
  startMem : state_to_string s₀ ∈ v
  ventry : ∀ k ∈ v, ∃ c, isPermutation c ∧ reaches s₀ c ∧ k = state_to_string c ∧
    ((∃ p, (c, p) ∈ q) ∨
      (c ≠ goal_state ∧ ∀ nb ∈ get_neighbors c, state_to_string nb ∈ v))
  qentry : ∀ e ∈ q, isPermutation e.1 ∧ validFrom s₀ e.2 ∧ pathEnd s₀ e.2 = e.1 ∧
    state_to_string e.1 ∈ v ∧ ∀ m, reachN m s₀ e.1 → e.2.length ≤ m
  qsorted : (q.map (fun e => e.2.length)).Sorted (· ≤ ·)
  qlevel : ∀ e ∈ q, ∀ e' ∈ q, e.2.length ≤ e'.2.length + 1
  complete : ∀ hd, q.head? = some hd → ∀ c m, reachN m s₀ c → m ≤ hd.2.length →
    state_to_string c ∈ v

/-- When the queue empties, the visited set is closed under moves, so the goal
was unreachable. -/
theorem visited_closure (s₀ : Config) (hs₀ : isPermutation s₀) (v : List String)
    (hcl : ∀ k ∈ v, ∃ c, isPermutation c ∧ k = state_to_string c ∧
      ∀ nb ∈ get_neighbors c, state_to_string nb ∈ v)
    (hstart : state_to_string s₀ ∈ v) :
    ∀ t, reaches s₀ t → state_to_string t ∈ v := by
  rintro t ⟨p, hv, he⟩
  induction p generalizing s₀ with
  | nil => rw [← he]; exact hstart
  | cons a p ih =>
      rw [pathEnd_cons] at he
      have hka : state_to_string a ∈ v := by
        obtain ⟨c, hcperm, hck, hnb⟩ := hcl _ hstart
        have hcs : c = s₀ := key_inj c s₀ hcperm hs₀ hck.symm
        subst hcs
        exact hnb a hv.1
      exact ih a (neighbors_isPerm s₀ a hs₀ hv.1) hka hv.2 he

theorem empty_queue_no_solution (s₀ : Config) (hs₀ : isPermutation s₀)
    (v : List String) (hinv : BFSInv s₀ [] v) : ¬ reaches s₀ goal_state := by
  intro hr
  have hcl : ∀ k ∈ v, ∃ c, isPermutation c ∧ k = state_to_string c ∧
      ∀ nb ∈ get_neighbors c, state_to_string nb ∈ v := by
    intro k hk
    obtain ⟨c, h1, _, h3, h4⟩ := hinv.ventry k hk
    rcases h4 with ⟨p, hp⟩ | ⟨_, hcl⟩
    · exact absurd hp (List.not_mem_nil _)
    · exact ⟨c, h1, h3, hcl⟩
  have hkg := visited_closure s₀ hs₀ v hcl hinv.startMem goal_state hr
  obtain ⟨c, hcperm, _, hck, h4⟩ := hinv.ventry _ hkg
  rcases h4 with ⟨p, hp⟩ | ⟨hne, _⟩
  · exact absurd hp (List.not_mem_nil _)
  · exact hne (key_inj c goal_state hcperm goal_isPermutation hck.symm)

theorem sorted_const (n : Nat) (l : List Nat) (h : ∀ x ∈ l, x = n) :
    l.Sorted (· ≤ ·) := by
  induction l with
  | nil => exact List.sorted_nil
  | cons a l ih =>
      refine List.sorted_cons.2 ⟨fun b hb => ?_, ih fun x hx => h x (List.mem_cons_of_mem _ hx)⟩
      rw [h a (List.mem_cons_self _ _), h b (List.mem_cons_of_mem _ hb)]

/-- Expanding the popped non-goal entry `(c, p)` preserves the BFS invariant,
and the expansion adds matching numbers of queue entries and visited keys. -/
theorem bfs_step (s₀ : Config) (hs₀ : isPermutation s₀) (c : Config) (p : List Config)
    (rest : List (Config × List Config)) (v : List String)
    (hinv : BFSInv s₀ ((c, p) :: rest) v) (hc : c ≠ goal_state) :
    BFSInv s₀ (bfs_fold p (get_neighbors c) rest v).1 (bfs_fold p (get_neighbors c) rest v).2 ∧
    ∃ a, (bfs_fold p (get_neighbors c) rest v).1.length = rest.length + a ∧
      (bfs_fold p (get_neighbors c) rest v).2.length = v.length + a := by
  obtain ⟨added, hq', hv', hadded, hallnb, hnod⟩ :=
    bfs_fold_spec p (get_neighbors c) rest v
  obtain ⟨hcperm, hcvalid, hcend, hckey, hcmin⟩ :=
    hinv.qentry (c, p) (List.mem_cons_self _ _)
  have hreach_c : reaches s₀ c := ⟨p, hcvalid, hcend⟩
  have hsorted_cons := List.sorted_cons.1 (by
    simpa using hinv.qsorted : (p.length :: rest.map (fun e => e.2.length)).Sorted (· ≤ ·))
  have hrest_ge : ∀ e ∈ rest, p.length ≤ e.2.length := by
    intro e he
    exact hsorted_cons.1 _ (List.mem_map_of_mem _ he)
  have hrest_le : ∀ e ∈ rest, e.2.length ≤ p.length + 1 := by
    intro e he
    exact hinv.qlevel e (List.mem_cons_of_mem _ he) (c, p) (List.mem_cons_self _ _)
  have hvmono : ∀ k ∈ v, k ∈ (bfs_fold p (get_neighbors c) rest v).2 := by
    intro k hk
    rw [hv']
    exact List.mem_append_left _ hk
  have hkey_added : ∀ e ∈ added, state_to_string e.1 ∈ (bfs_fold p (get_neighbors c) rest v).2 := by
    intro e he
    rw [hv']
    exact List.mem_append_right _ (List.mem_map_of_mem _ he)
  have hnewdist : ∀ e ∈ added, ∀ m, reachN m s₀ e.1 → p.length + 1 ≤ m := by
    intro e he m hm
    obtain ⟨nb, hn1, rfl, hn3⟩ := hadded e he
    by_contra hlt
    exact hn3 (hinv.complete (c, p) rfl nb m hm (show m ≤ p.length by omega))
  have hq'mem : ∀ e, e ∈ (bfs_fold p (get_neighbors c) rest v).1 ↔ e ∈ rest ∨ e ∈ added := by
    intro e
    rw [hq']
    exact List.mem_append
  have hval : ∀ e ∈ (bfs_fold p (get_neighbors c) rest v).1,
      p.length ≤ e.2.length ∧ e.2.length ≤ p.length + 1 := by
    intro e he
    rcases (hq'mem e).1 he with he | he
    · exact ⟨hrest_ge e he, hrest_le e he⟩
    · obtain ⟨nb, _, rfl, _⟩ := hadded e he
      simp
  refine ⟨⟨hnod hinv.vnodup, hvmono _ hinv.startMem, ?_, ?_, ?_, ?_, ?_⟩, added.length, ?_, ?_⟩
  · -- ventry
    intro k hk
    rw [hv'] at hk
    rcases List.mem_append.1 hk with hk | hk
    · obtain ⟨c', w1, w2, w3, w4⟩ := hinv.ventry k hk
      rcases w4 with ⟨p', hp'⟩ | ⟨wne, wcl⟩
      · rcases List.mem_cons.1 hp' with heq | hp'
        · injection heq with hc' hp'eq
          subst hc'
          exact ⟨c', w1, w2, w3, Or.inr ⟨hc, fun nb hnb => hallnb nb hnb⟩⟩
        · exact ⟨c', w1, w2, w3, Or.inl ⟨p', by rw [hq']; exact List.mem_append_left _ hp'⟩⟩
      · exact ⟨c', w1, w2, w3, Or.inr ⟨wne, fun nb hnb => hvmono _ (wcl nb hnb)⟩⟩
    · obtain ⟨e, he, rfl⟩ := List.mem_map.1 hk
      obtain ⟨nb, hn1, rfl, hn3⟩ := hadded e he
      refine ⟨nb, neighbors_isPerm c nb hcperm hn1,
        reaches_step s₀ c nb hreach_c hn1, rfl,
        Or.inl ⟨p ++ [nb], ?_⟩⟩
      rw [hq']
      exact List.mem_append_right _ he
  · -- qentry
    intro e he
    rcases (hq'mem e).1 he with he | he
    · obtain ⟨e1, e2, e3, e4, e5⟩ := hinv.qentry e (List.mem_cons_of_mem _ he)
      exact ⟨e1, e2, e3, hvmono _ e4, e5⟩
    · obtain ⟨nb, hn1, rfl, hn3⟩ := hadded e he
      refine ⟨neighbors_isPerm c nb hcperm hn1,
        (validFrom_append s₀ p [nb]).2 ⟨hcvalid, by rw [hcend]; exact ⟨hn1, trivial⟩⟩,
        pathEnd_concat s₀ nb p, hkey_added _ he, ?_⟩
      intro m hm
      have := hnewdist _ he m hm
      simpa using this
  · -- qsorted
    rw [hq', List.map_append]
    refine List.pairwise_append.2 ⟨hsorted_cons.2, ?_, ?_⟩
    · refine sorted_const (p.length + 1) _ ?_
      intro x hx
      obtain ⟨e, he, rfl⟩ := List.mem_map.1 hx
      obtain ⟨nb, _, rfl, _⟩ := hadded e he
      simp
    · intro a ha b hb
      obtain ⟨e, he, rfl⟩ := List.mem_map.1 ha
      obtain ⟨e', he', rfl⟩ := List.mem_map.1 hb
      obtain ⟨nb, _, rfl, _⟩ := hadded e' he'
      have := hrest_le e he
      simp only [List.length_append, List.length_cons, List.length_nil]
      omega
  · -- qlevel
    intro e he e' he'
    have h1 := hval e he
    have h2 := hval e' he'
    omega
  · -- complete
    intro hd hhd c' m hrm hle
    have hdmem : hd ∈ (bfs_fold p (get_neighbors c) rest v).1 := by
      cases hq : (bfs_fold p (get_neighbors c) rest v).1 with
      | nil => rw [hq] at hhd; simp at hhd
      | cons x xs =>
          rw [hq] at hhd
          simp only [List.head?_cons, Option.some.injEq] at hhd
          subst hhd
          exact List.mem_cons_self _ _
    have hdlen := hval hd hdmem
    by_cases hm : m ≤ p.length
    · exact hvmono _ (hinv.complete (c, p) rfl c' m hrm hm)
    · have hmeq : m = p.length + 1 := by omega
      subst hmeq
      obtain ⟨y, hy, hcy⟩ := reachN_succ _ _ _ hrm
      have hyperm : isPermutation y := reachN_isPerm _ _ _ hs₀ hy
      have hky : state_to_string y ∈ v :=
        hinv.complete (c, p) rfl y p.length hy (le_refl _)
      obtain ⟨c₂, w1, _, w3, w4⟩ := hinv.ventry _ hky
      have hc₂ : c₂ = y := key_inj c₂ y w1 hyperm w3.symm
      subst hc₂
      rcases w4 with ⟨p_y, hpy⟩ | ⟨_, hnbv⟩
      · rcases List.mem_cons.1 hpy with heq | hpy
        · injection heq with hc₂c hpyp
          subst hc₂c
          exact hallnb c' hcy
        · -- a queued entry for y sits in `rest`, but `rest` is entirely at
          -- level p.length + 1 here, while y is at distance ≤ p.length
          obtain ⟨_, _, _, _, hmin⟩ := hinv.qentry (c₂, p_y) (List.mem_cons_of_mem _ hpy)
          have hpylen : p_y.length ≤ p.length := hmin _ hy
          -- hd must be the head of rest
          cases rest with
          | nil => exact absurd hpy (List.not_mem_nil _)
          | cons r rest' =>
              have hhd' : r = hd := by
                rw [hq'] at hhd
                simpa using hhd
              subst hhd'
              have hsr : ∀ b ∈ rest'.map (fun e => e.2.length), r.2.length ≤ b :=
                (List.sorted_cons.1 (by simpa using hsorted_cons.2)).1
              have hrle : r.2.length ≤ p_y.length := by
                rcases List.mem_cons.1 hpy with heq2 | hpy'
                · rw [← heq2]
                · exact hsr _ (List.mem_map_of_mem _ hpy')
              omega
      · exact hvmono _ (hnbv c' hcy)
  · rw [hq', List.length_append]
  · rw [hv', List.length_append, List.length_map]

/-- Main correctness of the BFS loop: under the invariant with sufficient
fuel, the loop either returns a valid shortest path to the goal, or returns
the no-solution sentinel precisely when the goal is unreachable. -/
theorem bfs_loop_correct (s₀ : Config) (hs₀ : isPermutation s₀) :
    ∀ fuel q v, BFSInv s₀ q v →
      2 * (Nat.factorial 9 - v.length) + q.length < fuel →
      (∃ p, bfs_loop fuel q v = some (some p) ∧ validFrom s₀ p ∧
        pathEnd s₀ p = goal_state ∧ ∀ m, reachN m s₀ goal_state → p.length ≤ m)
      ∨ (bfs_loop fuel q v = some none ∧ ¬ reaches s₀ goal_state) := by
  intro fuel
  induction fuel with
  | zero => intro q v _ hf; omega
  | succ fuel ih =>
      intro q v hinv hf
      cases q with
      | nil =>
          right
          exact ⟨rfl, empty_queue_no_solution s₀ hs₀ v hinv⟩
      | cons e rest =>
          obtain ⟨c, p⟩ := e
          by_cases hgoal : c = goal_state
          · left
            obtain ⟨_, hvalid, hend, _, hmin⟩ := hinv.qentry (c, p) (List.mem_cons_self _ _)
            subst hgoal
            refine ⟨p, ?_, hvalid, hend, fun m hm => hmin m hm⟩
            simp [bfs_loop, is_goal]
          · have hred : bfs_loop (fuel + 1) ((c, p) :: rest) v
                = bfs_loop fuel (bfs_fold p (get_neighbors c) rest v).1
                    (bfs_fold p (get_neighbors c) rest v).2 := by
              simp [bfs_loop, is_goal, hgoal]
            obtain ⟨hinv', a, hqlen, hvlen⟩ := bfs_step s₀ hs₀ c p rest v hinv hgoal
            have hVbound : (bfs_fold p (get_neighbors c) rest v).2.length ≤ Nat.factorial 9 := by
              refine visited_bound _ hinv'.vnodup ?_
              intro k hk
              obtain ⟨c', h1, _, h3, _⟩ := hinv'.ventry k hk
              exact ⟨c', h1, h3⟩
            have hmeas : 2 * (Nat.factorial 9 - (bfs_fold p (get_neighbors c) rest v).2.length)
                + (bfs_fold p (get_neighbors c) rest v).1.length < fuel := by
              simp only [List.length_cons] at hf
              omega
            rw [hred]
            exact ih _ _ hinv' hmeas

/-- The invariant holds at BFS start-up. -/
theorem bfs_init_inv (s₀ : Config) (hs₀ : isPermutation s₀) :
    BFSInv s₀ [(s₀, [])] [state_to_string s₀] := by
  refine ⟨List.nodup_singleton _, List.mem_singleton.2 rfl, ?_, ?_, ?_, ?_, ?_⟩
  · intro k hk
    rw [List.mem_singleton.1 hk]
    exact ⟨s₀, hs₀, reaches_refl s₀, rfl, Or.inl ⟨[], List.mem_singleton.2 rfl⟩⟩
  · intro e he
    rw [List.mem_singleton.1 he]
    exact ⟨hs₀, trivial, rfl, List.mem_singleton.2 rfl, fun m _ => Nat.zero_le m⟩
  · exact List.sorted_singleton _
  · intro e he e' he'
    rw [List.mem_singleton.1 he]
    exact Nat.zero_le _
  · intro hd hhd c m hm hle
    simp only [List.head?_cons, Option.some.injEq] at hhd
    subst hhd
    simp only [List.length_nil, Nat.le_zero] at hle
    subst hle
    rw [← reachN_zero s₀ c hm]
    exact List.mem_singleton.2 rfl

/-- `solve_bfs` on a permutation grid: either a valid shortest path to the
goal, or the no-solution sentinel exactly when the goal is unreachable. -/
theorem solve_bfs_correct (s₀ : Config) (hs₀ : isPermutation s₀) :
    (∃ p, solve_bfs s₀ = some (some p) ∧ validFrom s₀ p ∧
      pathEnd s₀ p = goal_state ∧ ∀ m, reachN m s₀ goal_state → p.length ≤ m)
    ∨ (solve_bfs s₀ = some none ∧ ¬ reaches s₀ goal_state) := by
  have hpos := Nat.factorial_pos 9
  refine bfs_loop_correct s₀ hs₀ bfsFuel _ _ (bfs_init_inv s₀ hs₀) ?_
  simp only [bfsFuel, List.length_singleton]
  omega

/-- When `solve_bfs` returns a path it is a valid shortest path to the goal. -/
theorem solve_bfs_path_valid (s₀ : Config) (p : List Config)
    (hs₀ : isPermutation s₀) (h : solve_bfs s₀ = some (some p)) :
    validFrom s₀ p ∧ pathEnd s₀ p = goal_state ∧
    ∀ m, reachN m s₀ goal_state → p.length ≤ m := by
  rcases solve_bfs_correct s₀ hs₀ with ⟨p', e1, e2, e3, e4⟩ | ⟨e1, _⟩
  · have hpp : p = p' := by
      have := h.symm.trans e1
      simpa using this
    subst hpp
    exact ⟨e2, e3, e4⟩
  · have := h.symm.trans e1
    simp at this

/-- Neighbor expansion of one side of the bidirectional search: for each
neighbor whose key is not yet in this side's visited map, record
`visited[key] = path + [neighbor]` and enqueue `(neighbor, path + [neighbor])`. -/
def bidi_fold (path : List Config) (nbs : List Config)
    (q : List (Config × List Config)) (vis : List (String × List Config)) :
    List (Config × List Config) × List (String × List Config) :=
  nbs.foldl
    (fun acc nb =>
      if acc.2.lookup (state_to_string nb) = none then
        (acc.1 ++ [(nb, path ++ [nb])],
         acc.2 ++ [(state_to_string nb, path ++ [nb])])
      else acc)
    (q, vis)

/-- The `while forward_queue and backward_queue:` loop of `solve_bidirectional`.
Each iteration performs the forward step (meeting test against the backward
map, then expansion) followed by the backward step (meeting test against the
updated forward map, then expansion), exactly as in the source. -/
def bidi_loop : Nat → List (Config × List Config) → List (String × List Config) →
    List (Config × List Config) → List (String × List Config) →
    Option (Option (List Config))
  | 0, _, _, _, _ => none
  | fuel + 1, fq, fv, bq, bv =>
      match fq, bq with
      | (state, path) :: fqrest, (bstate, bpath) :: bqrest =>
          match bv.lookup (state_to_string state) with
          | some backward_path => some (some (path ++ backward_path.reverse))
          | none =>
              let fqv := bidi_fold path (get_neighbors state) fqrest fv
              match fqv.2.lookup (state_to_string bstate) with
              | some forward_path => some (some (forward_path ++ bpath.reverse))
              | none =>
                  let bqv := bidi_fold bpath (get_neighbors bstate) bqrest bv
                  bidi_loop fuel fqv.1 fqv.2 bqv.1 bqv.2
      | _, _ => some none

def bidiFuel : Nat := 4 * Nat.factorial 9 + 4

/-- `solve_bidirectional`: forward side seeded from the initial state,
backward side seeded from the goal state. -/
def solve_bidirectional (initial : Config) : Option (Option (List Config)) :=
  bidi_loop bidiFuel [(initial, [])] [(state_to_string initial, [])]
    [(goal_state, [])] [(state_to_string goal_state, [])]

theorem lookup_mem {l : List (String × List Config)} {k : String} {v : List Config}
    (h : l.lookup k = some v) : (k, v) ∈ l := by
  induction l with
  | nil => simp [List.lookup] at h
  | cons a l ih =>
      rw [List.lookup] at h
      cases hbeq : k == a.1 with
      | false =>
          rw [hbeq] at h
          exact List.mem_cons_of_mem _ (ih h)
      | true =>
          rw [hbeq] at h
          injection h with h
          have hk : k = a.1 := eq_of_beq hbeq
          rw [hk, ← h]
          exact List.mem_cons_self _ _

theorem lookup_none_not_mem {l : List (String × List Config)} {k : String}
    (h : l.lookup k = none) : k ∉ l.map Prod.fst := by
  induction l with
  | nil => simp
  | cons a l ih =>
      rw [List.lookup] at h
      cases hbeq : k == a.1 with
      | false =>
          rw [hbeq] at h
          simp only [List.map_cons, List.mem_cons, not_or]
          exact ⟨by simpa using hbeq, ih h⟩
      | true =>
          rw [hbeq] at h
          exact absurd h (by simp)

/-- Characterisation of one round of bidirectional neighbor expansion. -/
theorem bidi_fold_spec (path : List Config) (nbs : List Config) :
    ∀ q vis, ∃ added : List (Config × List Config),
      (bidi_fold path nbs q vis).1 = q ++ added ∧
      (bidi_fold path nbs q vis).2
        = vis ++ added.map (fun e => (state_to_string e.1, e.2)) ∧
      (∀ e ∈ added, ∃ nb, nb ∈ nbs ∧ e = (nb, path ++ [nb])) ∧
      ((vis.map Prod.fst).Nodup → ((bidi_fold path nbs q vis).2.map Prod.fst).Nodup) := by
  induction nbs with
  | nil =>
      intro q vis
      exact ⟨[], by simp [bidi_fold], by simp [bidi_fold], by simp, fun h => by
        simpa [bidi_fold] using h⟩
  | cons nb nbs ih =>
      intro q vis
      by_cases hmem : vis.lookup (state_to_string nb) = none
      · have hstep : bidi_fold path (nb :: nbs) q vis
            = bidi_fold path nbs (q ++ [(nb, path ++ [nb])])
                (vis ++ [(state_to_string nb, path ++ [nb])]) := by
          simp [bidi_fold, List.foldl_cons, hmem]
        obtain ⟨added, h1, h2, h3, h4⟩ :=
          ih (q ++ [(nb, path ++ [nb])]) (vis ++ [(state_to_string nb, path ++ [nb])])
        refine ⟨(nb, path ++ [nb]) :: added, ?_, ?_, ?_, ?_⟩
        · rw [hstep, h1, List.append_assoc]
          rfl
        · rw [hstep, h2, List.append_assoc]
          rfl
        · intro e he
          rcases List.mem_cons.1 he with rfl | he
          · exact ⟨nb, List.mem_cons_self _ _, rfl⟩
          · obtain ⟨nb', hn1, hn2⟩ := h3 e he
            exact ⟨nb', List.mem_cons_of_mem _ hn1, hn2⟩
        · intro hnd
          rw [hstep]
          refine h4 ?_
          simp only [List.map_append, List.map_cons, List.map_nil]
          rw [List.nodup_append]
          exact ⟨hnd, List.nodup_singleton _, by
            simpa using fun hk => lookup_none_not_mem hmem hk⟩
      · have hstep : bidi_fold path (nb :: nbs) q vis = bidi_fold path nbs q vis := by
          simp [bidi_fold, List.foldl_cons, hmem]
        obtain ⟨added, h1, h2, h3, h4⟩ := ih q vis
        refine ⟨added, hstep ▸ h1, hstep ▸ h2, ?_, hstep ▸ h4⟩
        intro e he
        obtain ⟨nb', hn1, hn2⟩ := h3 e he
        exact ⟨nb', List.mem_cons_of_mem _ hn1, hn2⟩

theorem bidi_loop_step_eq (fuel : Nat) (c : Config) (p : List Config)
    (fq' : List (Config × List Config)) (fv : List (String × List Config))
    (bc : Config) (bp : List Config)
    (bq' : List (Config × List Config)) (bv : List (String × List Config))
    (h1 : bv.lookup (state_to_string c) = none)
    (h2 : (bidi_fold p (get_neighbors c) fq' fv).2.lookup (state_to_string bc) = none) :
    bidi_loop (fuel + 1) ((c, p) :: fq') fv ((bc, bp) :: bq') bv =
      bidi_loop fuel (bidi_fold p (get_neighbors c) fq' fv).1
        (bidi_fold p (get_neighbors c) fq' fv).2
        (bidi_fold bp (get_neighbors bc) bq' bv).1
        (bidi_fold bp (get_neighbors bc) bq' bv).2 := by
  simp [bidi_loop, h1, h2]

/-- Invariant of the bidirectional loop: forward entries are reachable from
the start, backward entries are reachable from the goal. -/
structure BidiInv (s₀ : Config) (fq : List (Config × List Config))
    (fv : List (String × List Config)) (bq : List (Config × List Config))
    (bv : List (String × List Config)) : Prop where
  fvnodup : (fv.map Prod.fst).Nodup
  bvnodup : (bv.map Prod.fst).Nodup
  fventry : ∀ e ∈ fv, ∃ c, isPermutation c ∧ reaches s₀ c ∧ e.1 = state_to_string c
  bventry : ∀ e ∈ bv, ∃ c, isPermutation c ∧ reaches goal_state c ∧ e.1 = state_to_string c
  fqentry : ∀ e ∈ fq, isPermutation e.1 ∧ reaches s₀ e.1
  bqentry : ∀ e ∈ bq, isPermutation e.1 ∧ reaches goal_state e.1

/-- On an unsolvable instance the two frontiers never meet, so the
bidirectional loop can only exhaust a frontier and report no solution. -/
theorem bidi_loop_no_solution (s₀ : Config) (hs₀ : isPermutation s₀)
    (hun : ¬ reaches s₀ goal_state) :
    ∀ fuel fq fv bq bv, BidiInv s₀ fq fv bq bv →
      2 * (Nat.factorial 9 - fv.length) + fq.length
        + (2 * (Nat.factorial 9 - bv.length) + bq.length) < fuel →
      bidi_loop fuel fq fv bq bv = some none := by
  intro fuel
  induction fuel with
  | zero => intro fq fv bq bv _ hf; omega
  | succ fuel ih =>
      intro fq fv bq bv hinv hf
      cases fq with
      | nil => rfl
      | cons e fq' =>
          obtain ⟨c, p⟩ := e
          cases bq with
          | nil => rfl
          | cons e' bq' =>
              obtain ⟨bc, bp⟩ := e'
              have hcfacts := hinv.fqentry (c, p) (List.mem_cons_self _ _)
              have hbcfacts := hinv.bqentry (bc, bp) (List.mem_cons_self _ _)
              have hlk1 : bv.lookup (state_to_string c) = none := by
                cases hlk : bv.lookup (state_to_string c) with
                | none => rfl
                | some bpath =>
                    obtain ⟨c₂, w1, w2, w3⟩ := hinv.bventry _ (lookup_mem hlk)
                    have hcc : c₂ = c := key_inj _ _ w1 hcfacts.1 w3.symm
                    subst hcc
                    exact absurd (reaches_trans s₀ c₂ goal_state hcfacts.2
                      (reaches_symm goal_state c₂ goal_isPermutation w2)) hun
              obtain ⟨fadded, hf1, hf2, hf3, hf4⟩ :=
                bidi_fold_spec p (get_neighbors c) fq' fv
              have hfv'entry : ∀ e ∈ (bidi_fold p (get_neighbors c) fq' fv).2,
                  ∃ c', isPermutation c' ∧ reaches s₀ c' ∧ e.1 = state_to_string c' := by
                intro e he
                rw [hf2] at he
                rcases List.mem_append.1 he with he | he
                · exact hinv.fventry e he
                · obtain ⟨e', he', rfl⟩ := List.mem_map.1 he
                  obtain ⟨nb, hn1, rfl⟩ := hf3 e' he'
                  exact ⟨nb, neighbors_isPerm c nb hcfacts.1 hn1,
                    reaches_step s₀ c nb hcfacts.2 hn1, rfl⟩
              have hlk2 : (bidi_fold p (get_neighbors c) fq' fv).2.lookup
                  (state_to_string bc) = none := by
                cases hlk : (bidi_fold p (get_neighbors c) fq' fv).2.lookup
                    (state_to_string bc) with
                | none => rfl
                | some fp =>
                    obtain ⟨c₃, w1, w2, w3⟩ := hfv'entry _ (lookup_mem hlk)
                    have hcc : c₃ = bc := key_inj _ _ w1 hbcfacts.1 w3.symm
                    subst hcc
                    exact absurd (reaches_trans s₀ c₃ goal_state w2
                      (reaches_symm goal_state c₃ goal_isPermutation hbcfacts.2)) hun
              obtain ⟨badded, hb1, hb2, hb3, hb4⟩ :=
                bidi_fold_spec bp (get_neighbors bc) bq' bv
              have hbv'entry : ∀ e ∈ (bidi_fold bp (get_neighbors bc) bq' bv).2,
                  ∃ c', isPermutation c' ∧ reaches goal_state c' ∧ e.1 = state_to_string c' := by
                intro e he
                rw [hb2] at he
                rcases List.mem_append.1 he with he | he
                · exact hinv.bventry e he
                · obtain ⟨e', he', rfl⟩ := List.mem_map.1 he
                  obtain ⟨nb, hn1, rfl⟩ := hb3 e' he'
                  exact ⟨nb, neighbors_isPerm bc nb hbcfacts.1 hn1,
                    reaches_step goal_state bc nb hbcfacts.2 hn1, rfl⟩
              rw [bidi_loop_step_eq fuel c p fq' fv bc bp bq' bv hlk1 hlk2]
              have hfvbound : (bidi_fold p (get_neighbors c) fq' fv).2.length
                  ≤ Nat.factorial 9 := by
                have := visited_bound ((bidi_fold p (get_neighbors c) fq' fv).2.map Prod.fst)
                  (hf4 hinv.fvnodup) (by
                    intro k hk
                    obtain ⟨e, he, rfl⟩ := List.mem_map.1 hk
                    obtain ⟨c', w1, _, w3⟩ := hfv'entry e he
                    exact ⟨c', w1, w3⟩)
                simpa using this
              have hbvbound : (bidi_fold bp (get_neighbors bc) bq' bv).2.length
                  ≤ Nat.factorial 9 := by
                have := visited_bound ((bidi_fold bp (get_neighbors bc) bq' bv).2.map Prod.fst)
                  (hb4 hinv.bvnodup) (by
                    intro k hk
                    obtain ⟨e, he, rfl⟩ := List.mem_map.1 hk
                    obtain ⟨c', w1, _, w3⟩ := hbv'entry e he
                    exact ⟨c', w1, w3⟩)
                simpa using this
              apply ih
              · refine ⟨hf4 hinv.fvnodup, hb4 hinv.bvnodup, hfv'entry, hbv'entry, ?_, ?_⟩
                · intro e he
                  rw [hf1] at he
                  rcases List.mem_append.1 he with he | he
                  · exact hinv.fqentry e (List.mem_cons_of_mem _ he)
                  · obtain ⟨nb, hn1, rfl⟩ := hf3 e he
                    exact ⟨neighbors_isPerm c nb hcfacts.1 hn1,
                      reaches_step s₀ c nb hcfacts.2 hn1⟩
                · intro e he
                  rw [hb1] at he
                  rcases List.mem_append.1 he with he | he
                  · exact hinv.bqentry e (List.mem_cons_of_mem _ he)
                  · obtain ⟨nb, hn1, rfl⟩ := hb3 e he
                    exact ⟨neighbors_isPerm bc nb hbcfacts.1 hn1,
                      reaches_step goal_state bc nb hbcfacts.2 hn1⟩
              · have e1 : (bidi_fold p (get_neighbors c) fq' fv).1.length
                    = fq'.length + fadded.length := by rw [hf1, List.length_append]
                have e2 : (bidi_fold p (get_neighbors c) fq' fv).2.length
                    = fv.length + fadded.length := by
                  rw [hf2, List.length_append, List.length_map]
                have e3 : (bidi_fold bp (get_neighbors bc) bq' bv).1.length
                    = bq'.length + badded.length := by rw [hb1, List.length_append]
                have e4 : (bidi_fold bp (get_neighbors bc) bq' bv).2.length
                    = bv.length + badded.length := by
                  rw [hb2, List.length_append, List.length_map]
                simp only [List.length_cons] at hf
                omega

theorem solve_bidirectional_no_solution (s₀ : Config) (hs₀ : isPermutation s₀)
    (hun : ¬ reaches s₀ goal_state) : solve_bidirectional s₀ = some none := by
  have hpos := Nat.factorial_pos 9
  refine bidi_loop_no_solution s₀ hs₀ hun bidiFuel _ _ _ _ ?_ ?_
  · refine ⟨List.nodup_singleton _, List.nodup_singleton _, ?_, ?_, ?_, ?_⟩
    · intro e he
      rw [List.mem_singleton.1 he]
      exact ⟨s₀, hs₀, reaches_refl s₀, rfl⟩
    · intro e he
      rw [List.mem_singleton.1 he]
      exact ⟨goal_state, goal_isPermutation, reaches_refl goal_state, rfl⟩
    · intro e he
      rw [List.mem_singleton.1 he]
      exact ⟨hs₀, reaches_refl s₀⟩
    · intro e he
      rw [List.mem_singleton.1 he]
      exact ⟨goal_isPermutation, reaches_refl goal_state⟩
  · simp only [bidiFuel, List.length_singleton]
    omega

/-- The mutable loop state of `solve_simulated_annealing`: iteration index
(used to address the oracle streams), current/best configurations and
energies, temperature, and the accumulated trace. -/
structure SAState where
  idx : Nat
  cur : Config
  curE : Int
  best : Config
  bestE : Int
  temp : Rat
  path : List Config

/-- One iteration of the annealing loop body.  `random.choice(neighbors)`
is modelled by the oracle `choice` (index modulo the neighbor count), and
the Metropolis draw `random.random() < exp(-delta/temperature)` by the
boolean oracle `accept`; the temperature schedule (multiplicative cooling,
restart from the best state below threshold 0.01 at temperature
`initial_temp * 0.5`) is carried in `ℚ`. -/
def sa_step (choice : Nat → Nat) (accept : Nat → Bool)
    (initial_temp cooling_rate : Rat) (st : SAState) : SAState :=
  let neighbors := get_neighbors st.cur
  let next_state := neighbors.getD (choice st.idx % neighbors.length) st.cur
  let next_energy := manhattan_distance next_state
  let stepped : SAState :=
    if next_energy < st.curE then
      ⟨st.idx, next_state, next_energy,
        (if next_energy < st.bestE then next_state else st.best),
        (if next_energy < st.bestE then next_energy else st.bestE),
        st.temp, st.path ++ [next_state]⟩
    else if accept st.idx then
      ⟨st.idx, next_state, next_energy, st.best, st.bestE, st.temp,
        st.path ++ [next_state]⟩
    else st
  let temp' := st.temp * cooling_rate
  if temp' < 1 / 100 then
    ⟨st.idx + 1, stepped.best, stepped.bestE, stepped.best, stepped.bestE,
      initial_temp * (1 / 2), stepped.path⟩
  else
    ⟨st.idx + 1, stepped.cur, stepped.curE, stepped.best, stepped.bestE,
      temp', stepped.path⟩

/-- The `for iteration in range(max_iterations)` loop: return the trace as
soon as the current energy is 0, otherwise run the body; after the last
iteration return the accumulated trace. -/
def sa_loop (choice : Nat → Nat) (accept : Nat → Bool)
    (initial_temp cooling_rate : Rat) : Nat → SAState → List Config
  | 0, st => st.path
  | fuel + 1, st =>
      if st.curE = 0 then st.path
      else sa_loop choice accept initial_temp cooling_rate fuel
        (sa_step choice accept initial_temp cooling_rate st)

/-- The state at function entry: current = best = initial, trace `[initial]`. -/
def sa_init (initial : Config) (initial_temp : Rat) : SAState :=
  ⟨0, initial, manhattan_distance initial, initial, manhattan_distance initial,
    initial_temp, [initial]⟩

/-- `solve_simulated_annealing`, with the source's randomness supplied by
the oracle streams. -/
def solve_simulated_annealing (initial : Config) (choice : Nat → Nat)
    (accept : Nat → Bool) (max_iterations : Nat)
    (initial_temp cooling_rate : Rat) : List Config :=
  sa_loop choice accept initial_temp cooling_rate max_iterations
    (sa_init initial initial_temp)

/-- Pure iteration of the loop body, with no early exit. -/
def sa_iters (choice : Nat → Nat) (accept : Nat → Bool)
    (initial_temp cooling_rate : Rat) : Nat → SAState → SAState
  | 0, st => st
  | n + 1, st => sa_iters choice accept initial_temp cooling_rate n
      (sa_step choice accept initial_temp cooling_rate st)

/-- The number of iterations the loop actually executes: the first time the
current energy reaches 0, capped at the iteration budget. -/
def sa_stop (choice : Nat → Nat) (accept : Nat → Bool)
    (initial_temp cooling_rate : Rat) : Nat → SAState → Nat
  | 0, _ => 0
  | fuel + 1, st =>
      if st.curE = 0 then 0
      else sa_stop choice accept initial_temp cooling_rate fuel
        (sa_step choice accept initial_temp cooling_rate st) + 1

theorem sa_stop_le (choice : Nat → Nat) (accept : Nat → Bool)
    (initial_temp cooling_rate : Rat) :
    ∀ fuel st, sa_stop choice accept initial_temp cooling_rate fuel st ≤ fuel := by
  intro fuel
  induction fuel with
  | zero => intro st; exact Nat.le_refl 0
  | succ fuel ih =>
      intro st
      rw [sa_stop]
      split
      · exact Nat.zero_le _
      · exact Nat.succ_le_succ (ih _)

/-- `sa_stop` is exactly the first goal-hit time, capped at the budget. -/
theorem sa_stop_spec (choice : Nat → Nat) (accept : Nat → Bool)
    (initial_temp cooling_rate : Rat) :
    ∀ fuel st,
      (∀ n, n < sa_stop choice accept initial_temp cooling_rate fuel st →
        (sa_iters choice accept initial_temp cooling_rate n st).curE ≠ 0) ∧
      (sa_stop choice accept initial_temp cooling_rate fuel st < fuel →
        (sa_iters choice accept initial_temp cooling_rate
          (sa_stop choice accept initial_temp cooling_rate fuel st) st).curE = 0) := by
  intro fuel
  induction fuel with
  | zero => intro st; exact ⟨fun n hn => absurd hn (Nat.not_lt_zero n), fun h => absurd h (by omega)⟩
  | succ fuel ih =>
      intro st
      rw [sa_stop]
      split
      · refine ⟨fun n hn => absurd hn (Nat.not_lt_zero n), fun _ => ?_⟩
        assumption
      · obtain ⟨ih1, ih2⟩ := ih (sa_step choice accept initial_temp cooling_rate st)
        constructor
        · intro n hn
          cases n with
          | zero => assumption
          | succ n => exact ih1 n (by omega)
        · intro hlt
          exact ih2 (by omega)

/-- The loop returns precisely the trace accumulated after `sa_stop` body
iterations. -/
theorem sa_loop_char (choice : Nat → Nat) (accept : Nat → Bool)
    (initial_temp cooling_rate : Rat) :
    ∀ fuel st, sa_loop choice accept initial_temp cooling_rate fuel st
      = (sa_iters choice accept initial_temp cooling_rate
          (sa_stop choice accept initial_temp cooling_rate fuel st) st).path := by
  intro fuel
  induction fuel with
  | zero => intro st; rfl
  | succ fuel ih =>
      intro st
      rw [sa_loop, sa_stop]
      split
      · rfl
      · rw [ih]
        rfl

theorem sa_step_path (choice : Nat → Nat) (accept : Nat → Bool)
    (initial_temp cooling_rate : Rat) (st : SAState) :
    (sa_step choice accept initial_temp cooling_rate st).path = st.path ∨
    ∃ x, (sa_step choice accept initial_temp cooling_rate st).path = st.path ++ [x] := by
  simp only [sa_step]
  split
  · split
    · right; exact ⟨_, rfl⟩
    · split
      · right; exact ⟨_, rfl⟩
      · left; rfl
  · split
    · right; exact ⟨_, rfl⟩
    · split
      · right; exact ⟨_, rfl⟩
      · left; rfl

theorem sa_iters_path_head (choice : Nat → Nat) (accept : Nat → Bool)
    (initial_temp cooling_rate : Rat) :
    ∀ n st, st.path ≠ [] →
      (sa_iters choice accept initial_temp cooling_rate n st).path.head? = st.path.head? ∧
      (sa_iters choice accept initial_temp cooling_rate n st).path ≠ [] := by
  intro n
  induction n with
  | zero => intro st h; exact ⟨rfl, h⟩
  | succ n ih =>
      intro st h
      have hstep := sa_step_path choice accept initial_temp cooling_rate st
      rcases hstep with heq | ⟨x, heq⟩
      · have h2 := ih (sa_step choice accept initial_temp cooling_rate st) (by rw [heq]; exact h)
        rw [sa_iters, h2.1, heq]
        exact ⟨rfl, h2.2⟩
      · have hne : (sa_step choice accept initial_temp cooling_rate st).path ≠ [] := by
          rw [heq]; simp
        have h2 := ih (sa_step choice accept initial_temp cooling_rate st) hne
        rw [sa_iters, h2.1, heq]
        refine ⟨?_, h2.2⟩
        cases hp : st.path with
        | nil => exact absurd hp h
        | cons a q => rfl

/-- C1: for every permutation start from which the goal is reachable,
`solve_bfs` returns a path whose length equals the true shortest-path
distance from the start to the goal. -/
theorem solve_bfs_shortest (s₀ : Config) (h1 : isPermutation s₀)
    (h2 : ∃ n, reachN n s₀ goal_state) :
    ∃ p, solve_bfs s₀ = some (some p) ∧ reachN p.length s₀ goal_state ∧
      ∀ m, reachN m s₀ goal_state → p.length ≤ m := by
  rcases solve_bfs_correct s₀ h1 with ⟨p, e1, e2, e3, e4⟩ | ⟨_, e2⟩
  · exact ⟨p, e1, ⟨p, e2, rfl, e3⟩, e4⟩
  · obtain ⟨n, pth, hv, _, he⟩ := h2
    exact absurd ⟨pth, hv, he⟩ e2

/-- Witness for C1 at a configuration one move from the goal: the
hypotheses hold there and BFS indeed returns the length-1 path. -/
theorem solve_bfs_shortest_witness :
    isPermutation [[1,2,3],[4,5,6],[7,0,8]] ∧
    (∃ n, reachN n [[1,2,3],[4,5,6],[7,0,8]] goal_state) ∧
    solve_bfs [[1,2,3],[4,5,6],[7,0,8]] = some (some [goal_state]) ∧
    (∃ p, solve_bfs [[1,2,3],[4,5,6],[7,0,8]] = some (some p) ∧
      reachN p.length [[1,2,3],[4,5,6],[7,0,8]] goal_state ∧
      ∀ m, reachN m [[1,2,3],[4,5,6],[7,0,8]] goal_state → p.length ≤ m) :=
  ⟨by decide, ⟨1, [goal_state], by decide, rfl, rfl⟩, rfl,
    solve_bfs_shortest [[1,2,3],[4,5,6],[7,0,8]] (by decide)
      ⟨1, [goal_state], by decide, rfl, rfl⟩⟩

/-- C2 (code bug): on the 2-move instance `[[1,2,3],[4,5,6],[0,7,8]]` the
bidirectional search returns the meeting configuration twice and drops the
goal-side tail: the returned path repeats `[[1,2,3],[4,5,6],[7,0,8]]` (a
consecutive pair that differs by no move) and does not end at the goal. -/
theorem solve_bidirectional_invalid_path :
    solve_bidirectional [[1,2,3],[4,5,6],[0,7,8]] =
      some (some [[[1,2,3],[4,5,6],[7,0,8]], [[1,2,3],[4,5,6],[7,0,8]]]) ∧
    ([[1,2,3],[4,5,6],[7,0,8]] : Config) ≠ goal_state :=
  ⟨rfl, by decide⟩

/-- C3: on a permutation grid, `get_neighbors` returns 4 configurations when
the blank is in the center, 3 on an edge, 2 in a corner; each result differs
from the input by exactly one adjacent blank swap and is itself a
permutation of 0..8. -/
theorem get_neighbors_claim (s : Config) (hs : isPermutation s) :
    ∃ i j, get_blank_position s = some (i, j) ∧ i < 3 ∧ j < 3 ∧
      (get_neighbors s).length =
        (if i = 1 ∧ j = 1 then 4 else if i = 1 ∨ j = 1 then 3 else 2) ∧
      ∀ t ∈ get_neighbors s, adjacentSwap s t ∧ isPermutation t :=
  neighbors_complete s hs

/-- Witness for C3 at a center-blank configuration. -/
theorem get_neighbors_claim_witness :
    isPermutation [[1,2,3],[4,0,5],[6,7,8]] ∧
    ∃ i j, get_blank_position [[1,2,3],[4,0,5],[6,7,8]] = some (i, j) ∧
      i < 3 ∧ j < 3 ∧
      (get_neighbors [[1,2,3],[4,0,5],[6,7,8]]).length =
        (if i = 1 ∧ j = 1 then 4 else if i = 1 ∨ j = 1 then 3 else 2) ∧
      ∀ t ∈ get_neighbors [[1,2,3],[4,0,5],[6,7,8]],
        adjacentSwap [[1,2,3],[4,0,5],[6,7,8]] t ∧ isPermutation t :=
  ⟨by decide, get_neighbors_claim [[1,2,3],[4,0,5],[6,7,8]] (by decide)⟩

/-- C4: on permutation grids `manhattan_distance` is a non-negative integer,
it is 0 at the goal, and it is 0 only at the goal. -/
theorem manhattan_distance_spec (s : Config) (hs : isPermutation s) :
    0 ≤ manhattan_distance s ∧ manhattan_distance goal_state = 0 ∧
    (manhattan_distance s = 0 ↔ s = goal_state) :=
  ⟨manhattan_nonneg s hs.1, by decide, manhattan_zero_iff s hs⟩

/-- Witness for C4 at a non-goal permutation. -/
theorem manhattan_distance_spec_witness :
    isPermutation [[1,2,3],[4,5,6],[7,0,8]] ∧
    (0 ≤ manhattan_distance [[1,2,3],[4,5,6],[7,0,8]] ∧
      manhattan_distance goal_state = 0 ∧
      (manhattan_distance [[1,2,3],[4,5,6],[7,0,8]] = 0 ↔
        [[1,2,3],[4,5,6],[7,0,8]] = goal_state)) :=
  ⟨by decide, manhattan_distance_spec [[1,2,3],[4,5,6],[7,0,8]] (by decide)⟩

/-- C5: on a permutation start from which the goal is unreachable, both
searches exhaust their frontiers within the fuel bound and return the
no-solution sentinel. -/
theorem unsolvable_sentinel (s₀ : Config) (h1 : isPermutation s₀)
    (h2 : ¬ reaches s₀ goal_state) :
    solve_bfs s₀ = some none ∧ solve_bidirectional s₀ = some none := by
  refine ⟨?_, solve_bidirectional_no_solution s₀ h1 h2⟩
  rcases solve_bfs_correct s₀ h1 with ⟨p, _, e2, e3, _⟩ | ⟨e1, _⟩
  · exact absurd ⟨p, e2, e3⟩ h2
  · exact e1

/-- Witness for C5 at the adjacent-transposition instance of the unsolvable
parity class (tiles 1 and 2 of the goal swapped). -/
theorem unsolvable_sentinel_witness :
    isPermutation badStart ∧ ¬ reaches badStart goal_state ∧
    (solve_bfs badStart = some none ∧ solve_bidirectional badStart = some none) :=
  ⟨by decide, badStart_unsolvable,
    unsolvable_sentinel badStart (by decide) badStart_unsolvable⟩

/-- C6: `solve_simulated_annealing` never signals failure: for every oracle
stream and budget it returns the trace accumulated after exactly `sa_stop`
body iterations, where `sa_stop` is the first time the current energy
reaches 0, capped at `max_iterations`; with a zero budget the result is the
single-element trace `[initial]`; and the returned trace always starts at
the initial configuration (no failure sentinel exists). -/
theorem solve_simulated_annealing_spec (initial : Config) (choice : Nat → Nat)
    (accept : Nat → Bool) (max_iterations : Nat) (initial_temp cooling_rate : Rat) :
    solve_simulated_annealing initial choice accept max_iterations initial_temp cooling_rate
      = (sa_iters choice accept initial_temp cooling_rate
          (sa_stop choice accept initial_temp cooling_rate max_iterations
            (sa_init initial initial_temp))
          (sa_init initial initial_temp)).path ∧
    sa_stop choice accept initial_temp cooling_rate max_iterations
        (sa_init initial initial_temp) ≤ max_iterations ∧
    (∀ n, n < sa_stop choice accept initial_temp cooling_rate max_iterations
        (sa_init initial initial_temp) →
      (sa_iters choice accept initial_temp cooling_rate n
        (sa_init initial initial_temp)).curE ≠ 0) ∧
    (sa_stop choice accept initial_temp cooling_rate max_iterations
        (sa_init initial initial_temp) < max_iterations →
      (sa_iters choice accept initial_temp cooling_rate
        (sa_stop choice accept initial_temp cooling_rate max_iterations
          (sa_init initial initial_temp))
        (sa_init initial initial_temp)).curE = 0) ∧
    solve_simulated_annealing initial choice accept 0 initial_temp cooling_rate = [initial] ∧
    (solve_simulated_annealing initial choice accept max_iterations initial_temp
      cooling_rate).head? = some initial := by
  obtain ⟨hs1, hs2⟩ := sa_stop_spec choice accept initial_temp cooling_rate
    max_iterations (sa_init initial initial_temp)
  have hh := sa_iters_path_head choice accept initial_temp cooling_rate
    (sa_stop choice accept initial_temp cooling_rate max_iterations
      (sa_init initial initial_temp))
    (sa_init initial initial_temp) (by simp [sa_init])
  refine ⟨sa_loop_char choice accept initial_temp cooling_rate max_iterations _,
    sa_stop_le choice accept initial_temp cooling_rate max_iterations _,
    hs1, hs2, rfl, ?_⟩
  have hchar : solve_simulated_annealing initial choice accept max_iterations
      initial_temp cooling_rate
      = (sa_iters choice accept initial_temp cooling_rate
          (sa_stop choice accept initial_temp cooling_rate max_iterations
            (sa_init initial initial_temp))
          (sa_init initial initial_temp)).path :=
    sa_loop_char choice accept initial_temp cooling_rate max_iterations _
  rw [hchar, hh.1]
  rfl

/-- C7 counterexample: with a zero iteration budget no move is executed,
yet the annealing trace has length 1 (it contains the start), so the
returned list's length is not the move count; and the bidirectional path
on the 2-move instance repeats the meeting configuration, so its length 2
exceeds its single represented move. -/
theorem path_length_counterexample :
    (solve_simulated_annealing [[1,2,3],[4,5,6],[7,0,8]] (fun _ => 0) (fun _ => false)
      0 1 (995 / 1000)).length = 1 ∧
    solve_bidirectional [[1,2,3],[4,5,6],[0,7,8]] =
      some (some [[[1,2,3],[4,5,6],[7,0,8]], [[1,2,3],[4,5,6],[7,0,8]]]) :=
  ⟨rfl, rfl⟩

/-- C7 amended: BFS paths list the configurations after the start in move
order, so a returned BFS path is a valid walk from the start (length =
number of moves) ending at the goal; the annealing trace instead begins
with the start configuration itself, so its length is one more than the
number of recorded moves; the bidirectional combiner can repeat the meeting
configuration (see the counterexample), so its length need not equal a move
count. -/
theorem path_semantics_amended :
    (∀ s₀ p, isPermutation s₀ → solve_bfs s₀ = some (some p) →
      validFrom s₀ p ∧ pathEnd s₀ p = goal_state) ∧
    (∀ (initial : Config) (choice : Nat → Nat) (accept : Nat → Bool)
      (k : Nat) (t r : Rat), ∃ tail,
      solve_simulated_annealing initial choice accept k t r = initial :: tail) := by
  constructor
  · intro s₀ p hs h
    obtain ⟨a, b, _⟩ := solve_bfs_path_valid s₀ p hs h
    exact ⟨a, b⟩
  · intro initial choice accept k t r
    have hh := sa_iters_path_head choice accept t r
      (sa_stop choice accept t r k (sa_init initial t)) (sa_init initial t)
      (by simp [sa_init])
    have hchar : solve_simulated_annealing initial choice accept k t r
        = (sa_iters choice accept t r (sa_stop choice accept t r k (sa_init initial t))
            (sa_init initial t)).path :=
      sa_loop_char choice accept t r k _
    rw [hchar]
    cases hL : (sa_iters choice accept t r (sa_stop choice accept t r k (sa_init initial t))
        (sa_init initial t)).path with
    | nil => exact absurd hL hh.2
    | cons a tail =>
        rw [hL] at hh
        have ha : a = initial := by
          have := hh.1
          simp only [List.head?_cons] at this
          injection this
        exact ⟨tail, by rw [ha]⟩

/-- Witness for C7's amended claim at concrete inputs: the hypotheses of the
BFS part hold at the one-move instance, and the annealing part instantiates
at a concrete oracle. -/
theorem path_semantics_amended_witness :
    (validFrom [[1,2,3],[4,5,6],[7,0,8]] [goal_state] ∧
      pathEnd [[1,2,3],[4,5,6],[7,0,8]] [goal_state] = goal_state) ∧
    (∃ tail, solve_simulated_annealing badStart (fun _ => 0) (fun _ => false)
      2 1 (995 / 1000) = badStart :: tail) :=
  ⟨path_semantics_amended.1 [[1,2,3],[4,5,6],[7,0,8]] [goal_state] (by decide) rfl,
    path_semantics_amended.2 badStart (fun _ => 0) (fun _ => false) 2 1 (995 / 1000)⟩

/-- C8: `state_to_string` is injective on 3×3 grids with digit cells, so key
equality decides configuration equality for visited-set membership. -/
theorem state_to_string_injective (s t : Config)
    (h1 : wellFormed s) (h2 : cellsInRange s)
    (h3 : wellFormed t) (h4 : cellsInRange t) :
    state_to_string s = state_to_string t ↔ s = t :=
  state_to_string_inj s t h1 h2 h3 h4

/-- Witness for C8, at grids with repeated digit cells. -/
theorem state_to_string_injective_witness :
    wellFormed [[1,1,1],[2,2,2],[3,3,3]] ∧ cellsInRange [[1,1,1],[2,2,2],[3,3,3]] ∧
    wellFormed goal_state ∧ cellsInRange goal_state ∧
    (state_to_string [[1,1,1],[2,2,2],[3,3,3]] = state_to_string goal_state ↔
      [[1,1,1],[2,2,2],[3,3,3]] = goal_state) :=
  ⟨by decide, by decide, by decide, by decide,
    state_to_string_injective [[1,1,1],[2,2,2],[3,3,3]] goal_state
      (by decide) (by decide) (by decide) (by decide)⟩

/-- C9: on permutation grids `get_blank_position` returns the coordinates of
the unique blank cell; its `None` branch is unreachable, and `get_neighbors`
never takes its empty fallback branch. -/
theorem get_blank_position_total (s : Config) (hs : isPermutation s) :
    ∃ i j, get_blank_position s = some (i, j) ∧ i < 3 ∧ j < 3 ∧
      cellAt s i j = 0 ∧
      (∀ a b, a < 3 → b < 3 → cellAt s a b = 0 → a = i ∧ b = j) ∧
      get_blank_position s ≠ none ∧ get_neighbors s ≠ [] := by
  obtain ⟨i, j, h1, h2, h3, h4, h5, h6⟩ := blank_unique s hs
  exact ⟨i, j, h1, h2, h3, h4, h5, by rw [h1]; simp, h6⟩

/-- Witness for C9. -/
theorem get_blank_position_total_witness :
    isPermutation [[0,1,2],[3,4,5],[6,7,8]] ∧
    (∃ i j, get_blank_position [[0,1,2],[3,4,5],[6,7,8]] = some (i, j) ∧
      i < 3 ∧ j < 3 ∧ cellAt [[0,1,2],[3,4,5],[6,7,8]] i j = 0 ∧
      (∀ a b, a < 3 → b < 3 → cellAt [[0,1,2],[3,4,5],[6,7,8]] a b = 0 →
        a = i ∧ b = j) ∧
      get_blank_position [[0,1,2],[3,4,5],[6,7,8]] ≠ none ∧
      get_neighbors [[0,1,2],[3,4,5],[6,7,8]] ≠ []) :=
  ⟨by decide, get_blank_position_total [[0,1,2],[3,4,5],[6,7,8]] (by decide)⟩

/-- C10: when the initial configuration already equals the goal, both BFS
and bidirectional search return the empty path (zero moves). -/
theorem identity_start_empty_path (s₀ : Config) (h : s₀ = goal_state) :
    solve_bfs s₀ = some (some []) ∧ solve_bidirectional s₀ = some (some []) := by
  subst h
  exact ⟨rfl, rfl⟩

/-- Witness for C10 at the goal configuration itself. -/
theorem identity_start_empty_path_witness :
    goal_state = goal_state ∧
    (solve_bfs goal_state = some (some []) ∧
      solve_bidirectional goal_state = some (some [])) :=
  ⟨rfl, identity_start_empty_path goal_state rfl⟩
